import Mathlib

set_option maxRecDepth 100000

/-!
Verification of the SOAP envelope codec (package `envelope`,
`v2alpha/soap/envelope/envelope.go`).

The Go code writes a SOAP envelope as hand-assembled framing bytes around a
generically marshaled payload, and reads an envelope back with a generic XML
decoder, surfacing a decoded `Fault` as an error.

Shallow embedding conventions:
* Byte streams are `List Char` (the source works on UTF-8 text; Lean `Char`
  is a Unicode scalar, which covers every input the claims touch).
* The XML collaborator (`encoding/xml`) is modeled executably:
  - `escText` models `xml.EscapeText` / the encoder's text escaping
    (the eight escaped characters of Go's `escapeText`; the invalid-UTF-8
    replacement path cannot arise for Lean chars and is not modeled);
  - payload values ("Args") are modeled as XML fragments (`XNode`), with
    `renderFrag` modeling what `xml.Encoder.Encode` emits for them: child
    elements and character data, a namespaced element carrying a default
    `xmlns="..."` declaration, exactly as Go's encoder emits it;
  - the decoder is modeled as a character-level tokenizer (`tokenize`), a
    tree builder with namespace-prefix resolution (`parseDoc`), and the
    struct-tag driven binding of the `envelope`/`body`/`Fault` structures
    (`decodeEnvelope` etc.).  The decoder model parses the whole input at
    once (Go's streaming decoder stops after one top-level value; the
    difference matters only for inputs with trailing garbage).  Comments,
    CDATA and DOCTYPE sections are not modeled (no claim involves them).
* The caller's stream is `WStream`: written bytes plus a schedule of
  injected write-call results, so that a write failure at any call of
  `Write` can be expressed concretely.
-/

namespace envelope

/-- Byte streams, modeled as lists of characters. -/
abbrev Bytes := List Char

/-- Shorthand turning a string literal into `Bytes`. -/
def bs (s : String) : Bytes := s.toList

/-- The apostrophe character (written via its code point). -/
def sq : Char := Char.ofNat 39

/-- Model of Go `encoding/xml` escaping of one character: the eight cases of
Go's `escapeText`/`escapeString` (`escQuot`, `escApos`, `escAmp`, `escLT`,
`escGT`, `escTab`, `escNL`, `escCR`). -/
def escChar (c : Char) : Bytes :=
  if c = '"' then bs "&#34;"
  else if c = sq then bs "&#39;"
  else if c = '&' then bs "&amp;"
  else if c = '<' then bs "&lt;"
  else if c = '>' then bs "&gt;"
  else if c = '\t' then bs "&#x9;"
  else if c = '\n' then bs "&#xA;"
  else if c = '\r' then bs "&#xD;"
  else [c]

/-- Model of `xml.EscapeText` applied to a whole byte slice. -/
def escText : Bytes → Bytes
  | [] => []
  | c :: t => escChar c ++ escText t

/-- A payload value as the structured-marshaling collaborator sees it: an XML
fragment of character data and elements.  An element carries the namespace
URI Go would attach via its `xml.Name` (empty for a namespace-free element),
a local name and child nodes. -/
inductive XNode where
  | xtext (s : Bytes)
  | xelem (sp lo : Bytes) (children : List XNode)

mutual

/-- What `xml.Encoder.Encode` emits for one payload node: escaped character
data for text, and for an element an open tag (with a default `xmlns`
declaration when the element is namespaced, exactly as Go's encoder emits
it), the children, and a close tag. -/
def renderNode : XNode → Bytes
  | .xtext s => escText s
  | .xelem sp lo ch =>
    if sp = [] then
      '<' :: (lo ++ ('>' :: (renderFrag ch ++ ('<' :: '/' :: (lo ++ ['>'])))))
    else
      '<' :: (lo ++ (bs " xmlns=\"" ++ (escText sp ++ ('"' :: '>' ::
        (renderFrag ch ++ ('<' :: '/' :: (lo ++ ['>'])))))))

/-- What `xml.Encoder.Encode` emits for a whole payload fragment. -/
def renderFrag : List XNode → Bytes
  | [] => []
  | n :: t => renderNode n ++ renderFrag t

end

/-- The "constant" byte slices of the writer, verbatim from the source.
`envOpen` is `xml.Header` (which ends in a newline) followed by the
hand-written envelope/body open tags. -/
def envOpen : Bytes :=
  bs "<?xml version=\"1.0\" encoding=\"UTF-8\"?>\n" ++
  bs "<s:Envelope xmlns:s=\"http://schemas.xmlsoap.org/soap/envelope/\" s:encodingStyle=\"http://schemas.xmlsoap.org/soap/encoding/\"><s:Body>"

/-- Writer constant `env1`. -/
def env1 : Bytes := bs "<u:"

/-- Writer constant `env2`. -/
def env2 : Bytes := bs " xmlns:u=\""

/-- Writer constant `env3`. -/
def env3 : Bytes := bs "\">"

/-- Writer constant `env4`. -/
def env4 : Bytes := bs "</u:"

/-- Writer constant `env5`. -/
def env5 : Bytes := bs ">"

/-- Writer constant `envClose`. -/
def envClose : Bytes := bs "</s:Body></s:Envelope>"

/-- The `Action` value handed to `Write`/`Read`: the `XMLName` qualified name
(`Space`, `Local`) and the `Args` payload, modeled as an XML fragment. -/
structure Action where
  Space : Bytes
  Local : Bytes
  Args : List XNode

/-- The caller's writable stream: the bytes already written plus a schedule
of results for the upcoming write calls (an entry `some e` makes the next
write call fail with error `e` and write nothing; `none`, or an exhausted
schedule, makes it succeed). -/
structure WStream where
  out : Bytes
  errs : List (Option String)

/-- One write call on the stream. -/
def wwrite (w : WStream) (b : Bytes) : WStream × Option String :=
  match w.errs with
  | [] => (⟨w.out ++ b, []⟩, none)
  | none :: rest => (⟨w.out ++ b, rest⟩, none)
  | some e :: rest => (⟨w.out, rest⟩, some e)

/-- Model of `Write`.  It mirrors the source statement by statement: each
framing constant is one write call, each `xml.EscapeText` of a name is one
write call of the escaped bytes, and the `enc.Encode`/`enc.Flush` pair for
the payload is one write call of the marshaled fragment.  After `env4` the
source calls `xml.EscapeText(w, []byte(action.XMLName.Local))` WITHOUT
assigning its error (`err` keeps its previous `nil` value), so a failure of
that call is silently discarded and writing continues: the model reproduces
this faithfully at `r9`. -/
def Write (w0 : WStream) (action : Action) : WStream × Option String :=
  let r1 := wwrite w0 envOpen
  if r1.2.isSome then r1 else
  let r2 := wwrite r1.1 env1
  if r2.2.isSome then r2 else
  let r3 := wwrite r2.1 (escText action.Local)
  if r3.2.isSome then r3 else
  let r4 := wwrite r3.1 env2
  if r4.2.isSome then r4 else
  let r5 := wwrite r4.1 (escText action.Space)
  if r5.2.isSome then r5 else
  let r6 := wwrite r5.1 env3
  if r6.2.isSome then r6 else
  let r7 := wwrite r6.1 (renderFrag action.Args)
  if r7.2.isSome then r7 else
  let r8 := wwrite r7.1 env4
  if r8.2.isSome then r8 else
  let r9 := wwrite r8.1 (escText action.Local)
  let r10 := wwrite r9.1 env5
  if r10.2.isSome then r10 else
  wwrite r10.1 envClose

/-- The bytes `Write` produces on a stream that never fails. -/
def WriteOut (action : Action) : Bytes := (Write ⟨[], []⟩ action).1.out

/-! ## The decoder collaborator: tokenizer -/

/-- Whitespace, as the XML lexer sees it. -/
def isSpace (c : Char) : Bool := c = ' ' || c = '\t' || c = '\n' || c = '\r'

/-- Characters allowed to start an XML name (ASCII model of Go's
`isNameByte`/`isName`: letters, underscore, colon; any non-ASCII scalar is
accepted like Go's unicode table does for letters). -/
def isNameStartChar (c : Char) : Bool :=
  c.isAlpha || c = '_' || c = ':' || c.val ≥ 128

/-- Characters allowed inside an XML name. -/
def isNameChar (c : Char) : Bool :=
  isNameStartChar c || c.isDigit || c = '.' || c = '-'

/-- Decimal digit value. -/
def decDigit (c : Char) : Option Nat :=
  if c.isDigit then some (c.toNat - 48) else none

/-- Hexadecimal digit value. -/
def hexDigit (c : Char) : Option Nat :=
  if c.isDigit then some (c.toNat - 48)
  else if 'a' ≤ c ∧ c ≤ 'f' then some (c.toNat - 87)
  else if 'A' ≤ c ∧ c ≤ 'F' then some (c.toNat - 55)
  else none

/-- Accumulate digits of a character reference. -/
def numVal (dig : Char → Option Nat) (base : Nat) : Bytes → Nat → Option Nat
  | [], acc => some acc
  | c :: t, acc =>
    match dig c with
    | some d => numVal dig base t (acc * base + d)
    | none => none

/-- A numeric character reference, checked for scalar validity as Go does. -/
def charRef (n : Nat) : Option Char :=
  if h : n.isValidChar then some (Char.ofNatAux n h) else none

/-- Decode the body of a `&...;` entity: the five predefined named entities
of a strict-mode Go decoder, plus decimal and (lowercase-x) hexadecimal
character references. -/
def decodeEntity (e : Bytes) : Option Char :=
  if e = bs "amp" then some '&'
  else if e = bs "lt" then some '<'
  else if e = bs "gt" then some '>'
  else if e = bs "quot" then some '"'
  else if e = bs "apos" then some sq
  else
    match e with
    | '#' :: 'x' :: d :: ds => (numVal hexDigit 16 (d :: ds) 0).bind charRef
    | '#' :: d :: ds => (numVal decDigit 10 (d :: ds) 0).bind charRef
    | _ => none

/-- A raw attribute as lexed: unresolved `p:name` (or `xmlns...`) and the
entity-decoded value. -/
structure Attr where
  name : Bytes
  value : Bytes

/-- The semantic content of one XML token. -/
inductive TokCore where
  | tstart (name : Bytes) (attrs : List Attr) (selfClose : Bool)
  | tclose (name : Bytes)
  | ttext (s : Bytes)
  | tpi

/-- One XML token: content plus the raw source characters it came from (the
raw span is what the `,innerxml` binding preserves). -/
structure Tok where
  core : TokCore
  raw : Bytes

/-- Lexer modes.  Buffers accumulate left to right; `raw` buffers keep the
original characters of the token being lexed. -/
inductive Mode where
  | text (buf raw : Bytes)
  | ent (buf raw ebuf : Bytes)
  | tagStart
  | piBody (raw : Bytes) (qm : Bool)
  | closeName (raw nm : Bytes)
  | closeEnd (raw nm : Bytes)
  | openName (raw nm : Bytes)
  | attrsWs (raw nm : Bytes) (attrs : List Attr)
  | attrName (raw nm : Bytes) (attrs : List Attr) (an : Bytes)
  | attrAfterName (raw nm : Bytes) (attrs : List Attr) (an : Bytes)
  | attrEq (raw nm : Bytes) (attrs : List Attr) (an : Bytes)
  | attrVal (raw nm : Bytes) (attrs : List Attr) (an : Bytes) (q : Char) (vbuf : Bytes)
  | attrValEnt (raw nm : Bytes) (attrs : List Attr) (an : Bytes) (q : Char) (vbuf ebuf : Bytes)
  | selfClose (raw nm : Bytes) (attrs : List Attr)
  | fail (msg : String)

/-- Lexer state: tokens emitted so far and the current mode. -/
structure LexSt where
  toks : List Tok
  mode : Mode

/-- One step of the XML lexer on one character, without the token
accumulator: the tokens this step emits, and the successor mode. -/
def lexStep1 (m : Mode) (c : Char) : List Tok × Mode :=
  match m with
  | .fail msg => ([], .fail msg)
  | .text buf raw =>
    if c = '<' then
      if buf = [] then ([], .tagStart)
      else ([⟨.ttext buf, raw⟩], .tagStart)
    else if c = '&' then ([], .ent buf (raw ++ [c]) [])
    else ([], .text (buf ++ [c]) (raw ++ [c]))
  | .ent buf raw ebuf =>
    if c = ';' then
      match decodeEntity ebuf with
      | some ch => ([], .text (buf ++ [ch]) (raw ++ [c]))
      | none => ([], .fail "invalid character entity")
    else if c = '<' ∨ c = '&' then ([], .fail "invalid character entity")
    else ([], .ent buf (raw ++ [c]) (ebuf ++ [c]))
  | .tagStart =>
    if c = '?' then ([], .piBody (bs "<?") false)
    else if c = '/' then ([], .closeName (bs "</") [])
    else if isNameStartChar c then ([], .openName ('<' :: [c]) [c])
    else ([], .fail "invalid tag")
  | .piBody raw qm =>
    if c = '>' then
      if qm then ([⟨.tpi, raw ++ [c]⟩], .text [] [])
      else ([], .piBody (raw ++ [c]) false)
    else ([], .piBody (raw ++ [c]) (c = '?'))
  | .closeName raw nm =>
    if isNameChar c then ([], .closeName (raw ++ [c]) (nm ++ [c]))
    else if c = '>' then
      if nm = [] then ([], .fail "invalid close tag")
      else ([⟨.tclose nm, raw ++ [c]⟩], .text [] [])
    else if isSpace c then
      if nm = [] then ([], .fail "invalid close tag")
      else ([], .closeEnd (raw ++ [c]) nm)
    else ([], .fail "invalid close tag")
  | .closeEnd raw nm =>
    if isSpace c then ([], .closeEnd (raw ++ [c]) nm)
    else if c = '>' then ([⟨.tclose nm, raw ++ [c]⟩], .text [] [])
    else ([], .fail "invalid close tag")
  | .openName raw nm =>
    if isNameChar c then ([], .openName (raw ++ [c]) (nm ++ [c]))
    else if c = '>' then ([⟨.tstart nm [] false, raw ++ [c]⟩], .text [] [])
    else if c = '/' then ([], .selfClose (raw ++ [c]) nm [])
    else if isSpace c then ([], .attrsWs (raw ++ [c]) nm [])
    else ([], .fail "invalid tag name")
  | .attrsWs raw nm attrs =>
    if isSpace c then ([], .attrsWs (raw ++ [c]) nm attrs)
    else if c = '>' then ([⟨.tstart nm attrs false, raw ++ [c]⟩], .text [] [])
    else if c = '/' then ([], .selfClose (raw ++ [c]) nm attrs)
    else if isNameStartChar c then ([], .attrName (raw ++ [c]) nm attrs [c])
    else ([], .fail "invalid attribute")
  | .attrName raw nm attrs an =>
    if isNameChar c then ([], .attrName (raw ++ [c]) nm attrs (an ++ [c]))
    else if c = '=' then ([], .attrEq (raw ++ [c]) nm attrs an)
    else if isSpace c then ([], .attrAfterName (raw ++ [c]) nm attrs an)
    else ([], .fail "invalid attribute")
  | .attrAfterName raw nm attrs an =>
    if isSpace c then ([], .attrAfterName (raw ++ [c]) nm attrs an)
    else if c = '=' then ([], .attrEq (raw ++ [c]) nm attrs an)
    else ([], .fail "invalid attribute")
  | .attrEq raw nm attrs an =>
    if isSpace c then ([], .attrEq (raw ++ [c]) nm attrs an)
    else if c = '"' ∨ c = sq then ([], .attrVal (raw ++ [c]) nm attrs an c [])
    else ([], .fail "invalid attribute value")
  | .attrVal raw nm attrs an q vbuf =>
    if c = q then ([], .attrsWs (raw ++ [c]) nm (attrs ++ [⟨an, vbuf⟩]))
    else if c = '&' then ([], .attrValEnt (raw ++ [c]) nm attrs an q vbuf [])
    else if c = '<' then ([], .fail "unescaped < inside attribute value")
    else ([], .attrVal (raw ++ [c]) nm attrs an q (vbuf ++ [c]))
  | .attrValEnt raw nm attrs an q vbuf ebuf =>
    if c = ';' then
      match decodeEntity ebuf with
      | some ch => ([], .attrVal (raw ++ [c]) nm attrs an q (vbuf ++ [ch]))
      | none => ([], .fail "invalid character entity")
    else if c = '<' ∨ c = '&' then ([], .fail "invalid character entity")
    else ([], .attrValEnt (raw ++ [c]) nm attrs an q vbuf (ebuf ++ [c]))
  | .selfClose raw nm attrs =>
    if c = '>' then ([⟨.tstart nm attrs true, raw ++ [c]⟩], .text [] [])
    else ([], .fail "invalid tag")

/-- One step of the XML lexer on one character. -/
def lexStep (st : LexSt) (c : Char) : LexSt :=
  ⟨st.toks ++ (lexStep1 st.mode c).1, (lexStep1 st.mode c).2⟩

/-- Run the lexer over a list of characters. -/
def runLex : LexSt → Bytes → LexSt
  | st, [] => st
  | st, c :: cs => runLex (lexStep st c) cs

/-- Finish lexing: flush a pending text buffer; any other pending mode means
the input ended inside a tag or entity. -/
def lexFinish (st : LexSt) : Except String (List Tok) :=
  match st.mode with
  | .text buf raw =>
    .ok (st.toks ++ if buf = [] then [] else [⟨.ttext buf, raw⟩])
  | .fail m => .error m
  | _ => .error "unexpected EOF"

/-- Tokenize a whole byte stream. -/
def tokenize (s : Bytes) : Except String (List Tok) :=
  lexFinish (runLex ⟨[], .text [] []⟩ s)

/-! ## The decoder collaborator: tree building and namespace resolution -/

/-- A resolved attribute: namespace URI (empty for an unprefixed attribute),
local name, value. -/
structure RAttr where
  sp : Bytes
  lo : Bytes
  value : Bytes

/-- A parsed XML node with resolved names.  `raw` is the raw inner source
span of the element, which is what a Go `,innerxml` binding receives. -/
inductive PNode where
  | ptext (s : Bytes)
  | pelem (sp lo : Bytes) (attrs : List RAttr) (children : List PNode) (raw : Bytes)

/-- Namespace bindings in scope: most recent declaration first. -/
abbrev NsEnv := List (Bytes × Bytes)

/-- Look a namespace binding up. -/
def nsLookup : NsEnv → Bytes → Option Bytes
  | [], _ => none
  | (k, v) :: t, p => if k = p then some v else nsLookup t p

/-- Split a raw name at its colon, as Go's `nsname` does: more than one
colon, or an empty side, is a syntax error. -/
def splitQName (n : Bytes) : Except String (Option Bytes × Bytes) :=
  let p := n.takeWhile (fun c => c ≠ ':')
  match n.dropWhile (fun c => c ≠ ':') with
  | [] => .ok (none, n)
  | _ :: loc =>
    if p = [] ∨ loc = [] ∨ loc.any (fun c => c = ':') then
      .error "invalid qualified name"
    else .ok (some p, loc)

/-- Does this raw attribute declare a namespace (`xmlns="..."` or
`xmlns:p="..."`)? -/
def isNsDecl (a : Attr) : Bool :=
  if a.name = bs "xmlns" then true
  else
    match a.name with
    | 'x' :: 'm' :: 'l' :: 'n' :: 's' :: ':' :: _ => true
    | _ => false

/-- Extend the (default namespace, bindings) scope with the declarations
found among a start tag's attributes. -/
def nsExtend : Bytes × NsEnv → List Attr → Bytes × NsEnv
  | de, [] => de
  | (d, env), a :: t =>
    if a.name = bs "xmlns" then nsExtend (a.value, env) t
    else
      match a.name with
      | 'x' :: 'm' :: 'l' :: 'n' :: 's' :: ':' :: p =>
        if p = [] then nsExtend (d, env) t
        else nsExtend (d, (p, a.value) :: env) t
      | _ => nsExtend (d, env) t

/-- Resolve an element name: an unprefixed name takes the default namespace;
a bound prefix takes its URI; like Go's `translate`, an unbound prefix is
left as the namespace, and the `xml` prefix is predefined. -/
def resolveElemName (d : Bytes) (env : NsEnv) (n : Bytes) :
    Except String (Bytes × Bytes) :=
  match splitQName n with
  | .error e => .error e
  | .ok (none, lo) => .ok (d, lo)
  | .ok (some p, lo) =>
    if p = bs "xml" then .ok (bs "http://www.w3.org/XML/1998/namespace", lo)
    else .ok ((nsLookup env p).getD p, lo)

/-- Resolve an attribute name: unprefixed attributes do NOT take the default
namespace. -/
def resolveAttrName (env : NsEnv) (n : Bytes) : Except String (Bytes × Bytes) :=
  match splitQName n with
  | .error e => .error e
  | .ok (none, lo) => .ok ([], lo)
  | .ok (some p, lo) =>
    if p = bs "xml" then .ok (bs "http://www.w3.org/XML/1998/namespace", lo)
    else .ok ((nsLookup env p).getD p, lo)

/-- Resolve the non-declaration attributes of a start tag. -/
def resolveAttrs (env : NsEnv) : List Attr → Except String (List RAttr)
  | [] => .ok []
  | a :: t =>
    if isNsDecl a then resolveAttrs env t
    else
      match resolveAttrName env a.name with
      | .error e => .error e
      | .ok (sp, lo) =>
        match resolveAttrs env t with
        | .error e => .error e
        | .ok rest => .ok (⟨sp, lo, a.value⟩ :: rest)

/-- An open element still being built. -/
structure Frame where
  rawName : Bytes
  sp : Bytes
  lo : Bytes
  attrs : List RAttr
  defNS : Bytes
  env : NsEnv
  openRaw : Bytes
  children : List PNode
  raw : Bytes

/-- Tree-builder state. -/
structure BSt where
  stack : List Frame
  top : List PNode
  err : Option String

/-- The namespace scope at the current position. -/
def curScope : List Frame → Bytes × NsEnv
  | [] => ([], [])
  | f :: _ => (f.defNS, f.env)

/-- Record a completed node (with the raw characters it spans) at the
current position. -/
def addNode (st : BSt) (n : PNode) (nraw : Bytes) : BSt :=
  match st.stack with
  | [] => ⟨[], st.top ++ [n], st.err⟩
  | f :: rest =>
    ⟨{ f with children := f.children ++ [n], raw := f.raw ++ nraw } :: rest,
     st.top, st.err⟩

/-- One step of the tree builder on one token. -/
def bstep (st : BSt) (t : Tok) : BSt :=
  if st.err.isSome then st else
  match t.core with
  | .ttext s => addNode st (.ptext s) t.raw
  | .tpi =>
    match st.stack with
    | [] => st
    | f :: rest => ⟨{ f with raw := f.raw ++ t.raw } :: rest, st.top, st.err⟩
  | .tstart nm attrs sc =>
    let s0 := curScope st.stack
    let s1 := nsExtend s0 attrs
    match resolveElemName s1.1 s1.2 nm with
    | .error e => ⟨st.stack, st.top, some e⟩
    | .ok (sp, lo) =>
      match resolveAttrs s1.2 attrs with
      | .error e => ⟨st.stack, st.top, some e⟩
      | .ok rats =>
        if sc then addNode st (.pelem sp lo rats [] []) t.raw
        else ⟨⟨nm, sp, lo, rats, s1.1, s1.2, t.raw, [], []⟩ :: st.stack, st.top, st.err⟩
  | .tclose nm =>
    match st.stack with
    | [] => ⟨[], st.top, some "unexpected close tag"⟩
    | f :: rest =>
      if f.rawName = nm then
        addNode ⟨rest, st.top, st.err⟩ (.pelem f.sp f.lo f.attrs f.children f.raw)
          (f.openRaw ++ f.raw ++ t.raw)
      else ⟨st.stack, st.top, some "mismatched close tag"⟩

/-- Run the tree builder over a token list. -/
def runBuild : BSt → List Tok → BSt
  | st, [] => st
  | st, t :: ts => runBuild (bstep st t) ts

/-- Build the top-level nodes of a token stream. -/
def buildDoc (toks : List Tok) : Except String (List PNode) :=
  let st := runBuild ⟨[], [], none⟩ toks
  match st.err with
  | some e => .error e
  | none =>
    match st.stack with
    | [] => .ok st.top
    | _ => .error "unexpected EOF"

/-- Is this node an element? -/
def isElemNode : PNode → Bool
  | .pelem _ _ _ _ _ => true
  | .ptext _ => false

/-- Decode a document to its root element, skipping character data and
processing instructions before it, as `Decoder.Decode` does. -/
def parseDoc (input : Bytes) : Except String PNode :=
  match tokenize input with
  | .error e => .error e
  | .ok toks =>
    match buildDoc toks with
    | .error e => .error e
    | .ok nodes =>
      match nodes.find? isElemNode with
      | some root => .ok root
      | none => .error "EOF"

/-! ## The struct-tag binding of `envelope`/`body`/`Fault` and `Read` -/

/-- The SOAP envelope namespace of the `envelope`/`body` struct tags. -/
def soapNS : Bytes := bs "http://schemas.xmlsoap.org/soap/envelope/"

/-- Go `Fault` struct: `Code`, `String` and `Actor` are bound by the
`faultcode`/`faultstring`/`faultactor` element tags; `Detail` stands for
`Detail.Raw`, the `,innerxml` bytes of the `detail` element (the
single-field `FaultDetail` wrapper is flattened into `Detail`). -/
structure Fault where
  Code : Bytes
  String : Bytes
  Actor : Bytes
  Detail : Bytes

/-- The zero `Fault` allocated when a `Fault` element is first matched. -/
def emptyFault : Fault := ⟨[], [], [], []⟩

/-- Character data directly inside an element, as Go accumulates it for a
string field (nested elements are skipped, their text is not included). -/
def textContent : List PNode → Bytes
  | [] => []
  | .ptext s :: t => s ++ textContent t
  | _ :: t => textContent t

mutual

/-- Convert a parsed node back into the payload-fragment view the `Args`
target receives (attribute and raw-span information has no counterpart in
the fragment model of a payload). -/
def toFrag : PNode → XNode
  | .ptext s => .xtext s
  | .pelem sp lo _ ch _ => .xelem sp lo (toFragL ch)

/-- Convert a list of parsed nodes to payload fragments. -/
def toFragL : List PNode → List XNode
  | [] => []
  | n :: t => toFrag n :: toFragL t

end

/-- Decode one child of a `Fault` element into the matching field; the tags
`faultcode` etc. carry no namespace, so they match on local name alone. -/
def faultStep (f : Fault) (n : PNode) : Fault :=
  match n with
  | .ptext _ => f
  | .pelem _ lo _ ch raw =>
    if lo = bs "faultcode" then { f with Code := textContent ch }
    else if lo = bs "faultstring" then { f with String := textContent ch }
    else if lo = bs "faultactor" then { f with Actor := textContent ch }
    else if lo = bs "detail" then { f with Detail := raw }
    else f

/-- Decode the children of a `Fault` element into an existing `Fault`
value (Go re-uses the already-allocated struct, so fields merge). -/
def decodeFault : Fault → List PNode → Fault
  | f, [] => f
  | f, n :: t => decodeFault (faultStep f n) t

/-- The decoded `body` struct: `Fault *Fault` with tag `Fault` (matched on
local name in any namespace, tried before the catch-all) and
`Action *Action` with tag `,any`. -/
structure BodyRes where
  Fault : Option Fault
  Action : Action

/-- Decode one child element of `Body`: an element whose local name is
`Fault` binds (and merges into) the `Fault` field; any other element binds
the `,any` `Action` field, overwriting its `XMLName` with the element's
resolved name and its `Args` with the element's children. -/
def bodyStep (st : BodyRes) (n : PNode) : BodyRes :=
  match n with
  | .ptext _ => st
  | .pelem sp lo _ ch _ =>
    if lo = bs "Fault" then
      ⟨some (decodeFault (st.Fault.getD emptyFault) ch), st.Action⟩
    else ⟨st.Fault, ⟨sp, lo, toFragL ch⟩⟩

/-- Decode all children of a `Body` element. -/
def decodeBodyNodes : BodyRes → List PNode → BodyRes
  | st, [] => st
  | st, n :: t => decodeBodyNodes (bodyStep st n) t

/-- Decode one child of the envelope root: only an element named `Body` in
the SOAP namespace is bound (the `envelope` struct has no catch-all). -/
def envStep (st : BodyRes) (n : PNode) : BodyRes :=
  match n with
  | .ptext _ => st
  | .pelem sp lo _ ch _ =>
    if sp = soapNS ∧ lo = bs "Body" then decodeBodyNodes st ch else st

/-- Decode all children of the envelope root. -/
def decodeEnvChildren : BodyRes → List PNode → BodyRes
  | st, [] => st
  | st, n :: t => decodeEnvChildren (envStep st n) t

/-- Look an attribute up by resolved name. -/
def findAttr : List RAttr → Bytes → Bytes → Option Bytes
  | [], _, _ => none
  | a :: t, sp, lo => if a.sp = sp ∧ a.lo = lo then some a.value else findAttr t sp lo

/-- The decoded `envelope` struct: the `encodingStyle` attribute and the
`Body` field. -/
structure EnvRes where
  EncodingStyle : Bytes
  Body : BodyRes

/-- Decode the root element into the `envelope` struct, threading the
caller-supplied `Action` as the decode target inside `Body`. -/
def decodeEnvelope (root : PNode) (action : Action) : EnvRes :=
  match root with
  | .ptext _ => ⟨[], ⟨none, action⟩⟩
  | .pelem _ _ attrs ch _ =>
    ⟨(findAttr attrs soapNS (bs "encodingStyle")).getD [],
     decodeEnvChildren ⟨none, action⟩ ch⟩

/-- The reader's error outcomes: a structural decode error (from the XML
collaborator, including the root-name check) or a decoded `*Fault`. -/
inductive RErr where
  | decodeErr (msg : String)
  | fault (f : Fault)

/-- Resolved name of a parsed node. -/
def pName : PNode → Bytes × Bytes
  | .ptext _ => ([], [])
  | .pelem sp lo _ _ _ => (sp, lo)

/-- Model of `Read`: decode the stream into the `envelope` structure (the
`XMLName` tag on `envelope` makes the decoder reject a root element that is
not `Envelope` in the SOAP namespace), then return the `Fault` as the error
outcome when one was populated, else success with the updated action. -/
def Read (input : Bytes) (action : Action) : Except RErr Action :=
  match parseDoc input with
  | .error e => .error (.decodeErr e)
  | .ok root =>
    if pName root = (soapNS, bs "Envelope") then
      match (decodeEnvelope root action).Body.Fault with
      | some f => .error (.fault f)
      | none => .ok (decodeEnvelope root action).Body.Action
    else .error (.decodeErr "expected element type <Envelope>")

/-! ## Predicates and observers used by the claims -/

/-- Characters the writer must escape for claim C5 (`<`, `&`, `"`). -/
def hasSpecial (s : Bytes) : Bool :=
  s.any (fun c => c = '<' || c = '&' || c = '"')

/-- A usable XML name: nonempty, made of name characters, starting with a
name-start character, and containing no colon (a colon would be read back
as a namespace separator). -/
def validNameB : Bytes → Bool
  | [] => false
  | c :: t =>
    isNameStartChar c && (c :: t).all (fun d => isNameChar d && !(d == ':'))

/-- Is this payload node character data? -/
def isTextNode : XNode → Bool
  | .xtext _ => true
  | .xelem _ _ _ => false

mutual

/-- A payload node in the domain of the round-trip property: text is
nonempty; an element is namespace-free, has a usable name, and has
well-formed children. -/
def wfNode : XNode → Bool
  | .xtext s => !s.isEmpty
  | .xelem sp lo ch => sp.isEmpty && validNameB lo && wfFrag ch

/-- A payload fragment in the domain of the round-trip property: all nodes
well-formed and no two adjacent text nodes (the decoder merges adjacent
character data). -/
def wfFrag : List XNode → Bool
  | [] => true
  | [n] => wfNode n
  | n :: m :: t =>
    wfNode n && !(isTextNode n && isTextNode m) && wfFrag (m :: t)

end

/-- Children of a parsed node. -/
def pChildren : PNode → List PNode
  | .ptext _ => []
  | .pelem _ _ _ ch _ => ch

/-- Is this parsed node a `Body` element of the SOAP namespace? -/
def isBodyNode : PNode → Bool
  | .pelem sp lo _ _ _ => sp = soapNS && lo = bs "Body"
  | .ptext _ => false

/-- Is this parsed node an element with local name `Fault` (which is what
the `body` struct's `Fault` field matches, in any namespace)? -/
def isFaultNode : PNode → Bool
  | .pelem _ lo _ _ _ => lo = bs "Fault"
  | .ptext _ => false

/-- Did the read end in a decoded `*Fault` error? -/
def isFaultErr : Except RErr Action → Bool
  | .error (.fault _) => true
  | _ => false

/-- Did the read report success? -/
def isOkRes : Except RErr Action → Bool
  | .ok _ => true
  | _ => false

/-- Does this token carry a default (unprefixed) `xmlns` declaration? -/
def tokHasDefaultDecl (t : Tok) : Bool :=
  match t.core with
  | .tstart _ attrs _ => attrs.any (fun ab => ab.name = bs "xmlns")
  | _ => false

/-- Does the byte stream, read as XML tokens, contain a default namespace
declaration anywhere?  A stream that does not even tokenize is flagged
`true` (it cannot be certified declaration-free). -/
def hasDefaultXmlns (s : Bytes) : Bool :=
  match tokenize s with
  | .ok toks => toks.any tokHasDefaultDecl
  | .error _ => true

mutual

/-- The parsed image of a well-formed payload node (what the tree builder
reconstructs from the writer's rendering of it): an element keeps its name
(a namespace-free element resolves to the empty default namespace in
envelope scope), loses nothing else, and records its rendered children as
its raw span. -/
def pNode : XNode → PNode
  | .xtext s => .ptext s
  | .xelem sp lo ch => .pelem sp lo [] (pFrag ch) (renderFrag ch)

/-- The parsed image of a payload fragment. -/
def pFrag : List XNode → List PNode
  | [] => []
  | n :: t => pNode n :: pFrag t

end

mutual

/-- The token list the rendering of one well-formed payload node lexes to. -/
def nodeToks : XNode → List Tok
  | .xtext s => [⟨.ttext s, escText s⟩]
  | .xelem _ lo ch =>
    ⟨.tstart lo [] false, '<' :: (lo ++ bs ">")⟩ ::
      (fragToks ch ++ [⟨.tclose lo, '<' :: '/' :: (lo ++ bs ">")⟩])

/-- The token list the rendering of a payload fragment lexes to. -/
def fragToks : List XNode → List Tok
  | [] => []
  | n :: t => nodeToks n ++ fragToks t

end

/-- A raw (possibly prefixed) tag name the lexer accepts: nonempty, all
name characters, starting with a name-start character. -/
def rawNameOkB : Bytes → Bool
  | [] => false
  | c :: t => isNameStartChar c && (c :: t).all isNameChar

theorem runLex_cons (st : LexSt) (c : Char) (cs : Bytes) :
    runLex st (c :: cs) = runLex (lexStep st c) cs := rfl

mutual

/-- Structural weight of a payload node (for inductions). -/
def nodeWeight : XNode → Nat
  | .xtext _ => 1
  | .xelem _ _ ch => 1 + fragWeight ch

/-- Structural weight of a payload fragment. -/
def fragWeight : List XNode → Nat
  | [] => 0
  | n :: t => nodeWeight n + fragWeight t

end

/-! ## Concrete inputs used by claim evaluations -/

/-- The all-empty caller action used as a decode target. -/
def zeroAction : Action := ⟨[], [], []⟩

/-- The `GetStatus` action of the framing-exactness property. -/
def getStatusAction : Action := ⟨bs "urn:example", bs "GetStatus", []⟩

/-- A stream whose ninth write call (the one escaping the closing-tag local
name) fails; every other call succeeds. -/
def failAtCloseName : WStream :=
  ⟨[], [none, none, none, none, none, none, none, none, some "write failed"]⟩

/-- A concrete envelope whose `Body` carries the `Fault` of the fault-field
mapping property. -/
def faultEnvelopeInput : Bytes :=
  bs "<s:Envelope xmlns:s=\"http://schemas.xmlsoap.org/soap/envelope/\"><s:Body><Fault><faultcode>Server</faultcode><faultstring>boom</faultstring><faultactor>svc1</faultactor><detail><x>1</x></detail></Fault></s:Body></s:Envelope>"

/-! ## Token-level views of the writer output -/

/-- The XML declaration part of `envOpen` (without the trailing newline). -/
def xmlDeclRaw : Bytes := bs "<?xml version=\"1.0\" encoding=\"UTF-8\"?>"

/-- The `s:Envelope` open tag of `envOpen`. -/
def envTagRaw : Bytes := bs "<s:Envelope xmlns:s=\"http://schemas.xmlsoap.org/soap/envelope/\" s:encodingStyle=\"http://schemas.xmlsoap.org/soap/encoding/\">"

/-- The SOAP encoding-style URI carried by the envelope open tag. -/
def encStyleURI : Bytes := bs "http://schemas.xmlsoap.org/soap/encoding/"

/-- The processing-instruction token of the emitted XML declaration. -/
def tokPI : Tok := ⟨.tpi, xmlDeclRaw⟩

/-- The newline text token `xml.Header` produces before the envelope. -/
def tokNL : Tok := ⟨.ttext (bs "\n"), bs "\n"⟩

/-- The token of the emitted `s:Envelope` open tag. -/
def tokEnv : Tok :=
  ⟨.tstart (bs "s:Envelope")
    [⟨bs "xmlns:s", soapNS⟩, ⟨bs "s:encodingStyle", encStyleURI⟩] false, envTagRaw⟩

/-- The token of the emitted `s:Body` open tag. -/
def tokBody : Tok := ⟨.tstart (bs "s:Body") [] false, bs "<s:Body>"⟩

/-- The token of the emitted action wrapper open tag. -/
def tokU (L S : Bytes) : Tok :=
  ⟨.tstart (bs "u:" ++ L) [⟨bs "xmlns:u", S⟩] false,
   bs "<u:" ++ L ++ bs " xmlns:u=\"" ++ escText S ++ bs "\">"⟩

/-- The token of the emitted action wrapper close tag. -/
def tokUClose (L : Bytes) : Tok := ⟨.tclose (bs "u:" ++ L), bs "</u:" ++ L ++ bs ">"⟩

/-- The token of the emitted `s:Body` close tag. -/
def tokBodyClose : Tok := ⟨.tclose (bs "s:Body"), bs "</s:Body>"⟩

/-- The token of the emitted `s:Envelope` close tag. -/
def tokEnvClose : Tok := ⟨.tclose (bs "s:Envelope"), bs "</s:Envelope>"⟩

/-- The full token list of a written envelope. -/
def envToks (L S : Bytes) (P : List XNode) : List Tok :=
  [tokPI, tokNL, tokEnv, tokBody, tokU L S] ++ fragToks P ++
    [tokUClose L, tokBodyClose, tokEnvClose]

/-! ## Witness inputs with their parse trees -/

/-- An envelope whose `Body` holds both a `Fault` and a sibling
action-shaped element (for the fault-precedence witness). -/
def c1Input : Bytes := bs "<q:Envelope xmlns:q=\"http://schemas.xmlsoap.org/soap/envelope/\"><q:Body><q:Fault><faultstring>err</faultstring></q:Fault><DoIt><P>3</P></DoIt></q:Body></q:Envelope>"

/-- The tree `c1Input` parses to. -/
def c1Root : PNode :=
  .pelem soapNS (bs "Envelope") []
    [.pelem soapNS (bs "Body") []
      [.pelem soapNS (bs "Fault") []
        [.pelem [] (bs "faultstring") [] [.ptext (bs "err")] (bs "err")]
        (bs "<faultstring>err</faultstring>"),
       .pelem [] (bs "DoIt") []
        [.pelem [] (bs "P") [] [.ptext (bs "3")] (bs "3")]
        (bs "<P>3</P>")]
      (bs "<q:Fault><faultstring>err</faultstring></q:Fault><DoIt><P>3</P></DoIt>")]
    (bs "<q:Body><q:Fault><faultstring>err</faultstring></q:Fault><DoIt><P>3</P></DoIt></q:Body>")

/-- A fault-free envelope whose single `Body` child is an element named by
the peer, not by the caller (for the positional-decode witness). -/
def c9Input : Bytes := bs "<v:Envelope xmlns:v=\"http://schemas.xmlsoap.org/soap/envelope/\"><v:Body><Action77><A>1</A></Action77></v:Body></v:Envelope>"

/-- The tree `c9Input` parses to. -/
def c9Root : PNode :=
  .pelem soapNS (bs "Envelope") []
    [.pelem soapNS (bs "Body") []
      [.pelem [] (bs "Action77") []
        [.pelem [] (bs "A") [] [.ptext (bs "1")] (bs "1")]
        (bs "<A>1</A>")]
      (bs "<Action77><A>1</A></Action77>")]
    (bs "<v:Body><Action77><A>1</A></Action77></v:Body>")

/-- A fault-free envelope whose single `Body` child carries a qualified
name different from anything the caller supplied (for the
name-overwriting witness). -/
def c10Input : Bytes := bs "<e:Envelope xmlns:e=\"http://schemas.xmlsoap.org/soap/envelope/\"><e:Body><m:Renamed xmlns:m=\"urn:peer\"><X>2</X></m:Renamed></e:Body></e:Envelope>"

/-- The tree `c10Input` parses to. -/
def c10Root : PNode :=
  .pelem soapNS (bs "Envelope") []
    [.pelem soapNS (bs "Body") []
      [.pelem (bs "urn:peer") (bs "Renamed") []
        [.pelem [] (bs "X") [] [.ptext (bs "2")] (bs "2")]
        (bs "<X>2</X>")]
      (bs "<m:Renamed xmlns:m=\"urn:peer\"><X>2</X></m:Renamed>")]
    (bs "<e:Body><m:Renamed xmlns:m=\"urn:peer\"><X>2</X></m:Renamed></e:Body>")


/-! ## Basic lemmas -/

theorem runLex_append (a b : Bytes) : ∀ st, runLex st (a ++ b) = runLex (runLex st a) b := by
  induction a with
  | nil => intro st; rfl
  | cons c t ih =>
    intro st
    rw [List.cons_append]
    simp only [runLex]
    exact ih _

theorem runBuild_append (a b : List Tok) : ∀ st, runBuild st (a ++ b) = runBuild (runBuild st a) b := by
  induction a with
  | nil => intro st; rfl
  | cons c t ih =>
    intro st
    rw [List.cons_append]
    simp only [runBuild]
    exact ih _

/-- On a stream that never fails, `Write` succeeds and its output is the
framing constants around the escaped names and the marshaled payload. -/
theorem writeOut_eq (a : Action) :
    WriteOut a =
      envOpen ++ env1 ++ escText a.Local ++ env2 ++ escText a.Space ++ env3 ++
        renderFrag a.Args ++ env4 ++ escText a.Local ++ env5 ++ envClose := by
  simp [WriteOut, Write, wwrite, List.append_assoc]

/-! ## Fault precedence lemmas -/

theorem bodyStep_fault_isSome (st : BodyRes) (n : PNode) (h : st.Fault.isSome = true) :
    (bodyStep st n).Fault.isSome = true := by
  cases n with
  | ptext s => simpa [bodyStep] using h
  | pelem sp lo attrs ch raw =>
    by_cases hf : lo = bs "Fault" <;> simp [bodyStep, hf, h]

theorem decodeBodyNodes_fault_isSome (l : List PNode) :
    ∀ st : BodyRes, st.Fault.isSome = true → (decodeBodyNodes st l).Fault.isSome = true := by
  induction l with
  | nil => intro st h; simpa [decodeBodyNodes] using h
  | cons n t ih =>
    intro st h
    simpa [decodeBodyNodes] using ih _ (bodyStep_fault_isSome st n h)

theorem decodeBodyNodes_fault_of_mem (l : List PNode) :
    ∀ st : BodyRes, ∀ n ∈ l, isFaultNode n = true →
      (decodeBodyNodes st l).Fault.isSome = true := by
  induction l with
  | nil => intro st n hn; exact absurd hn (List.not_mem_nil n)
  | cons m t ih =>
    intro st n hn hf
    rcases List.mem_cons.mp hn with h | h
    · subst h
      cases n with
      | ptext s => simp [isFaultNode] at hf
      | pelem sp lo attrs ch raw =>
        have hlo : lo = bs "Fault" := by simpa [isFaultNode] using hf
        simp only [decodeBodyNodes]
        exact decodeBodyNodes_fault_isSome t _ (by simp [bodyStep, hlo])
    · simp only [decodeBodyNodes]
      exact ih _ n h hf

theorem envStep_fault_isSome (st : BodyRes) (n : PNode) (h : st.Fault.isSome = true) :
    (envStep st n).Fault.isSome = true := by
  cases n with
  | ptext s => simpa [envStep] using h
  | pelem sp lo attrs ch raw =>
    by_cases hb : sp = soapNS ∧ lo = bs "Body"
    · simp only [envStep, if_pos hb]
      exact decodeBodyNodes_fault_isSome ch st h
    · simpa [envStep, hb] using h

theorem decodeEnvChildren_fault_isSome (l : List PNode) :
    ∀ st : BodyRes, st.Fault.isSome = true → (decodeEnvChildren st l).Fault.isSome = true := by
  induction l with
  | nil => intro st h; simpa [decodeEnvChildren] using h
  | cons n t ih =>
    intro st h
    simpa [decodeEnvChildren] using ih _ (envStep_fault_isSome st n h)

theorem decodeEnvChildren_fault_of_mem (l : List PNode) :
    ∀ st : BodyRes, ∀ b ∈ l, isBodyNode b = true →
      (pChildren b).any isFaultNode = true →
      (decodeEnvChildren st l).Fault.isSome = true := by
  induction l with
  | nil => intro st b hb; exact absurd hb (List.not_mem_nil b)
  | cons m t ih =>
    intro st b hb hbody hfc
    rcases List.mem_cons.mp hb with h | h
    · subst h
      cases b with
      | ptext s => simp [isBodyNode] at hbody
      | pelem sp lo attrs ch raw =>
        have hsp : sp = soapNS ∧ lo = bs "Body" := by
          simpa [isBodyNode] using hbody
        rcases List.any_eq_true.mp (by simpa [pChildren] using hfc) with ⟨n, hn, hnf⟩
        simp only [decodeEnvChildren]
        refine decodeEnvChildren_fault_isSome t _ ?_
        simp only [envStep, if_pos hsp]
        exact decodeBodyNodes_fault_of_mem ch st n hn hnf
    · simp only [decodeEnvChildren]
      exact ih _ b h hbody hfc

/-! ## Single-body-child decode lemma -/

/-- Decoding a fault-free envelope whose `Body` holds exactly one element:
the result is success, with the action's name and payload taken from that
element, whatever its qualified name is. -/
theorem read_single (input : Bytes) (a0 : Action) (asp alo : Bytes)
    (eattrs battrs aattrs : List RAttr) (ch : List PNode) (eraw braw araw : Bytes)
    (h1 : parseDoc input = .ok (.pelem soapNS (bs "Envelope") eattrs
      [.pelem soapNS (bs "Body") battrs
        [.pelem asp alo aattrs ch araw] braw] eraw))
    (h2 : alo ≠ bs "Fault") :
    Read input a0 = .ok ⟨asp, alo, toFragL ch⟩ := by
  simp [Read, h1, pName, decodeEnvelope, decodeEnvChildren, envStep,
    decodeBodyNodes, bodyStep, h2]

/-! ## Round-trip machinery -/

theorem runLex_toks (x : Bytes) : ∀ (toks : List Tok) (m : Mode),
    runLex ⟨toks, m⟩ x =
      ⟨toks ++ (runLex ⟨[], m⟩ x).toks, (runLex ⟨[], m⟩ x).mode⟩ := by
  induction x with
  | nil => intro toks m; simp [runLex]
  | cons c t ih =>
    intro toks m
    simp only [runLex, lexStep]
    rw [ih (toks ++ (lexStep1 m c).1) (lexStep1 m c).2,
        ih ([] ++ (lexStep1 m c).1) (lexStep1 m c).2]
    simp [List.append_assoc]

theorem runLex_ent_run (x : Bytes) (hx : ∀ d ∈ x, d ≠ ';' ∧ d ≠ '<' ∧ d ≠ '&') :
    ∀ toks buf raw ebuf, runLex ⟨toks, .ent buf raw ebuf⟩ x =
      ⟨toks, .ent buf (raw ++ x) (ebuf ++ x)⟩ := by
  induction x with
  | nil => intro toks buf raw ebuf; simp [runLex]
  | cons c t ih =>
    intro toks buf raw ebuf
    obtain ⟨h1, h2, h3⟩ := hx c (List.mem_cons_self c t)
    have hx' : ∀ d ∈ t, d ≠ ';' ∧ d ≠ '<' ∧ d ≠ '&' :=
      fun d hd => hx d (List.mem_cons_of_mem c hd)
    simp only [runLex, lexStep, lexStep1]
    rw [if_neg h1, if_neg (not_or.mpr ⟨h2, h3⟩)]
    dsimp only
    rw [List.append_nil, ih hx']
    simp [List.append_assoc]

theorem runLex_text_entity (en : Bytes) (ch : Char) (hd : decodeEntity en = some ch)
    (hen : ∀ d ∈ en, d ≠ ';' ∧ d ≠ '<' ∧ d ≠ '&') :
    ∀ toks buf raw, runLex ⟨toks, .text buf raw⟩ ('&' :: (en ++ [';'])) =
      ⟨toks, .text (buf ++ [ch]) (raw ++ ('&' :: (en ++ [';'])))⟩ := by
  intro toks buf raw
  simp +decide only [runLex, lexStep, lexStep1, if_true, if_false]
  rw [List.append_nil, runLex_append en [';'] _, runLex_ent_run en hen]
  simp +decide only [runLex, lexStep, lexStep1, if_true, if_false]
  rw [List.nil_append, hd]
  simp [List.append_assoc]

theorem runLex_text_escChar (c : Char) : ∀ toks buf raw,
    runLex ⟨toks, .text buf raw⟩ (escChar c) =
      ⟨toks, .text (buf ++ [c]) (raw ++ escChar c)⟩ := by
  intro toks buf raw
  by_cases h1 : c = '"'
  · subst h1; exact runLex_text_entity (bs "#34") '"' (by decide) (by decide) toks buf raw
  by_cases h2 : c = sq
  · subst h2; exact runLex_text_entity (bs "#39") sq (by decide) (by decide) toks buf raw
  by_cases h3 : c = '&'
  · subst h3; exact runLex_text_entity (bs "amp") '&' (by decide) (by decide) toks buf raw
  by_cases h4 : c = '<'
  · subst h4; exact runLex_text_entity (bs "lt") '<' (by decide) (by decide) toks buf raw
  by_cases h5 : c = '>'
  · subst h5; exact runLex_text_entity (bs "gt") '>' (by decide) (by decide) toks buf raw
  by_cases h6 : c = '\t'
  · subst h6; exact runLex_text_entity (bs "#x9") '\t' (by decide) (by decide) toks buf raw
  by_cases h7 : c = '\n'
  · subst h7; exact runLex_text_entity (bs "#xA") '\n' (by decide) (by decide) toks buf raw
  by_cases h8 : c = '\r'
  · subst h8; exact runLex_text_entity (bs "#xD") '\r' (by decide) (by decide) toks buf raw
  have he : escChar c = [c] := by
    simp [escChar, h1, h2, h3, h4, h5, h6, h7, h8]
  rw [he]
  simp only [runLex, lexStep, lexStep1]
  rw [if_neg h4, if_neg h3]
  simp [runLex]

theorem runLex_text_esc (x : Bytes) : ∀ toks buf raw,
    runLex ⟨toks, .text buf raw⟩ (escText x) =
      ⟨toks, .text (buf ++ x) (raw ++ escText x)⟩ := by
  induction x with
  | nil => intro toks buf raw; simp [escText, runLex]
  | cons c t ih =>
    intro toks buf raw
    rw [show escText (c :: t) = escChar c ++ escText t from rfl,
      runLex_append, runLex_text_escChar, ih]
    simp [List.append_assoc]

theorem runLex_attrValEnt_run (x : Bytes) (hx : ∀ d ∈ x, d ≠ ';' ∧ d ≠ '<' ∧ d ≠ '&') :
    ∀ toks raw nm attrs an q vbuf ebuf,
      runLex ⟨toks, .attrValEnt raw nm attrs an q vbuf ebuf⟩ x =
        ⟨toks, .attrValEnt (raw ++ x) nm attrs an q vbuf (ebuf ++ x)⟩ := by
  induction x with
  | nil => intro toks raw nm attrs an q vbuf ebuf; simp [runLex]
  | cons c t ih =>
    intro toks raw nm attrs an q vbuf ebuf
    obtain ⟨h1, h2, h3⟩ := hx c (List.mem_cons_self c t)
    have hx' : ∀ d ∈ t, d ≠ ';' ∧ d ≠ '<' ∧ d ≠ '&' :=
      fun d hd => hx d (List.mem_cons_of_mem c hd)
    simp only [runLex, lexStep, lexStep1]
    rw [if_neg h1, if_neg (not_or.mpr ⟨h2, h3⟩)]
    dsimp only
    rw [List.append_nil, ih hx']
    simp [List.append_assoc]

theorem runLex_attrVal_entity (en : Bytes) (ch : Char) (hd : decodeEntity en = some ch)
    (hen : ∀ d ∈ en, d ≠ ';' ∧ d ≠ '<' ∧ d ≠ '&') :
    ∀ toks raw nm attrs an vbuf,
      runLex ⟨toks, .attrVal raw nm attrs an '"' vbuf⟩ ('&' :: (en ++ [';'])) =
        ⟨toks, .attrVal (raw ++ ('&' :: (en ++ [';']))) nm attrs an '"' (vbuf ++ [ch])⟩ := by
  intro toks raw nm attrs an vbuf
  simp +decide only [runLex, lexStep, lexStep1, if_true, if_false]
  rw [List.append_nil, runLex_append en [';'] _, runLex_attrValEnt_run en hen]
  simp +decide only [runLex, lexStep, lexStep1, if_true, if_false]
  rw [List.nil_append, hd]
  simp [List.append_assoc]

theorem runLex_attrVal_escChar (c : Char) : ∀ toks raw nm attrs an vbuf,
    runLex ⟨toks, .attrVal raw nm attrs an '"' vbuf⟩ (escChar c) =
      ⟨toks, .attrVal (raw ++ escChar c) nm attrs an '"' (vbuf ++ [c])⟩ := by
  intro toks raw nm attrs an vbuf
  by_cases h1 : c = '"'
  · subst h1; exact runLex_attrVal_entity (bs "#34") '"' (by decide) (by decide) toks raw nm attrs an vbuf
  by_cases h2 : c = sq
  · subst h2; exact runLex_attrVal_entity (bs "#39") sq (by decide) (by decide) toks raw nm attrs an vbuf
  by_cases h3 : c = '&'
  · subst h3; exact runLex_attrVal_entity (bs "amp") '&' (by decide) (by decide) toks raw nm attrs an vbuf
  by_cases h4 : c = '<'
  · subst h4; exact runLex_attrVal_entity (bs "lt") '<' (by decide) (by decide) toks raw nm attrs an vbuf
  by_cases h5 : c = '>'
  · subst h5; exact runLex_attrVal_entity (bs "gt") '>' (by decide) (by decide) toks raw nm attrs an vbuf
  by_cases h6 : c = '\t'
  · subst h6; exact runLex_attrVal_entity (bs "#x9") '\t' (by decide) (by decide) toks raw nm attrs an vbuf
  by_cases h7 : c = '\n'
  · subst h7; exact runLex_attrVal_entity (bs "#xA") '\n' (by decide) (by decide) toks raw nm attrs an vbuf
  by_cases h8 : c = '\r'
  · subst h8; exact runLex_attrVal_entity (bs "#xD") '\r' (by decide) (by decide) toks raw nm attrs an vbuf
  have he : escChar c = [c] := by
    simp [escChar, h1, h2, h3, h4, h5, h6, h7, h8]
  rw [he]
  simp only [runLex, lexStep, lexStep1]
  rw [if_neg h1, if_neg h3, if_neg h4]
  simp [runLex]

theorem runLex_attrVal_esc (x : Bytes) : ∀ toks raw nm attrs an vbuf,
    runLex ⟨toks, .attrVal raw nm attrs an '"' vbuf⟩ (escText x) =
      ⟨toks, .attrVal (raw ++ escText x) nm attrs an '"' (vbuf ++ x)⟩ := by
  induction x with
  | nil => intro toks raw nm attrs an vbuf; simp [escText, runLex]
  | cons c t ih =>
    intro toks raw nm attrs an vbuf
    rw [show escText (c :: t) = escChar c ++ escText t from rfl,
      runLex_append, runLex_attrVal_escChar, ih]
    simp [List.append_assoc]

theorem runLex_openName_run (x : Bytes) (hx : ∀ d ∈ x, isNameChar d = true) :
    ∀ toks raw nm, runLex ⟨toks, .openName raw nm⟩ x =
      ⟨toks, .openName (raw ++ x) (nm ++ x)⟩ := by
  induction x with
  | nil => intro toks raw nm; simp [runLex]
  | cons c t ih =>
    intro toks raw nm
    have h1 := hx c (List.mem_cons_self c t)
    have hx' : ∀ d ∈ t, isNameChar d = true :=
      fun d hd => hx d (List.mem_cons_of_mem c hd)
    simp only [runLex, lexStep, lexStep1, h1, if_true]
    rw [List.append_nil, ih hx']
    simp [List.append_assoc]

theorem runLex_closeName_run (x : Bytes) (hx : ∀ d ∈ x, isNameChar d = true) :
    ∀ toks raw nm, runLex ⟨toks, .closeName raw nm⟩ x =
      ⟨toks, .closeName (raw ++ x) (nm ++ x)⟩ := by
  induction x with
  | nil => intro toks raw nm; simp [runLex]
  | cons c t ih =>
    intro toks raw nm
    have h1 := hx c (List.mem_cons_self c t)
    have hx' : ∀ d ∈ t, isNameChar d = true :=
      fun d hd => hx d (List.mem_cons_of_mem c hd)
    simp only [runLex, lexStep, lexStep1, h1, if_true]
    rw [List.append_nil, ih hx']
    simp [List.append_assoc]

theorem validNameB_all {L : Bytes} (h : validNameB L = true) :
    ∀ c ∈ L, isNameChar c = true ∧ c ≠ ':' := by
  cases L with
  | nil => simp [validNameB] at h
  | cons c t =>
    simp only [validNameB, Bool.and_eq_true, List.all_eq_true] at h
    intro d hd
    obtain ⟨hn, hc⟩ := h.2 d hd
    refine ⟨hn, ?_⟩
    intro he
    subst he
    simp at hc

theorem validNameB_start {L : Bytes} (h : validNameB L = true) :
    ∃ c t, L = c :: t ∧ isNameStartChar c = true := by
  cases L with
  | nil => simp [validNameB] at h
  | cons c t =>
    have h2 : isNameStartChar c = true := by
      simp only [validNameB, Bool.and_eq_true, List.all_eq_true] at h
      exact h.1
    exact ⟨c, t, rfl, h2⟩

theorem validNameB_ne_nil {L : Bytes} (h : validNameB L = true) : L ≠ [] := by
  cases L with
  | nil => simp [validNameB] at h
  | cons c t => simp

theorem rawNameOkB_of_valid {L : Bytes} (h : validNameB L = true) :
    rawNameOkB L = true := by
  obtain ⟨c, t, hL, hc⟩ := validNameB_start h
  subst hL
  simp only [rawNameOkB, Bool.and_eq_true, List.all_eq_true]
  exact ⟨hc, fun d hd => (validNameB_all h d hd).1⟩

theorem rawNameOkB_u {L : Bytes} (h : validNameB L = true) :
    rawNameOkB (bs "u:" ++ L) = true := by
  rw [show bs "u:" ++ L = 'u' :: ':' :: L from rfl]
  simp only [rawNameOkB, Bool.and_eq_true, List.all_eq_true]
  constructor
  · decide
  · intro d hd
    rcases List.mem_cons.mp hd with h1 | h1
    · subst h1; decide
    rcases List.mem_cons.mp h1 with h2 | h2
    · subst h2; decide
    · exact (validNameB_all h d h2).1

/-- Consuming `<` in clean text mode just enters a tag. -/
theorem runLex_openAngle (toks : List Tok) (r : Bytes) :
    runLex ⟨toks, .text [] []⟩ ('<' :: r) = runLex ⟨toks, .tagStart⟩ r := by
  simp +decide only [runLex, lexStep, lexStep1, if_true, if_false]
  rw [List.append_nil]

/-- Consuming `<` after pending text flushes the text token. -/
theorem runLex_textFlush (toks : List Tok) (s raw r : Bytes) (hs : s ≠ []) :
    runLex ⟨toks, .text s raw⟩ ('<' :: r) =
      runLex ⟨toks ++ [⟨.ttext s, raw⟩], .tagStart⟩ r := by
  simp +decide only [runLex, lexStep, lexStep1, if_true, if_false]
  rw [if_neg hs]

/-- Lexing an attribute-free open tag with an acceptable raw name. -/
theorem runLex_plainOpen (lo : Bytes) (hlo : rawNameOkB lo = true)
    (toks : List Tok) (r : Bytes) :
    runLex ⟨toks, .tagStart⟩ (lo ++ ('>' :: r)) =
      runLex ⟨toks ++ [⟨.tstart lo [] false, '<' :: (lo ++ bs ">")⟩], .text [] []⟩ r := by
  cases lo with
  | nil => simp [rawNameOkB] at hlo
  | cons c0 t0 =>
    simp only [rawNameOkB, Bool.and_eq_true, List.all_eq_true] at hlo
    obtain ⟨hc0, hall⟩ := hlo
    have hq : c0 ≠ '?' := by intro he; rw [he] at hc0; exact absurd hc0 (by decide)
    have hsl : c0 ≠ '/' := by intro he; rw [he] at hc0; exact absurd hc0 (by decide)
    rw [List.cons_append, runLex_cons]
    have hst : lexStep ⟨toks, .tagStart⟩ c0 = ⟨toks, .openName ('<' :: [c0]) [c0]⟩ := by
      simp [lexStep, lexStep1, if_neg hq, if_neg hsl, hc0]
    rw [hst, runLex_append t0 ('>' :: r),
      runLex_openName_run t0 (fun d hd => hall d (List.mem_cons_of_mem c0 hd)),
      runLex_cons]
    have hgt : lexStep ⟨toks, .openName ('<' :: [c0] ++ t0) ([c0] ++ t0)⟩ '>' =
        ⟨toks ++ [⟨.tstart (c0 :: t0) [] false, '<' :: (c0 :: t0 ++ bs ">")⟩], .text [] []⟩ := by
      simp +decide [lexStep, lexStep1]
    rw [hgt]

/-- Lexing a close tag with an acceptable raw name. -/
theorem runLex_plainClose (lo : Bytes) (hlo : rawNameOkB lo = true)
    (toks : List Tok) (r : Bytes) :
    runLex ⟨toks, .tagStart⟩ ('/' :: (lo ++ ('>' :: r))) =
      runLex ⟨toks ++ [⟨.tclose lo, '<' :: '/' :: (lo ++ bs ">")⟩], .text [] []⟩ r := by
  cases lo with
  | nil => simp [rawNameOkB] at hlo
  | cons c0 t0 =>
    simp only [rawNameOkB, Bool.and_eq_true, List.all_eq_true] at hlo
    obtain ⟨hc0, hall⟩ := hlo
    rw [runLex_cons]
    have hst : lexStep ⟨toks, .tagStart⟩ '/' = ⟨toks, .closeName (bs "</") []⟩ := by
      simp +decide [lexStep, lexStep1]
    rw [hst, List.cons_append, runLex_cons]
    have hc : lexStep ⟨toks, .closeName (bs "</") []⟩ c0 =
        ⟨toks, .closeName (bs "</" ++ [c0]) [c0]⟩ := by
      simp [lexStep, lexStep1, hall c0 (List.mem_cons_self c0 t0)]
    rw [hc, runLex_append t0 ('>' :: r),
      runLex_closeName_run t0 (fun d hd => hall d (List.mem_cons_of_mem c0 hd)),
      runLex_cons]
    have hgt : lexStep ⟨toks, .closeName (bs "</" ++ [c0] ++ t0) ([c0] ++ t0)⟩ '>' =
        ⟨toks ++ [⟨.tclose (c0 :: t0), '<' :: '/' :: (c0 :: t0 ++ bs ">")⟩], .text [] []⟩ := by
      simp +decide [lexStep, lexStep1]
      rfl
    rw [hgt]

theorem nodeWeight_pos (n : XNode) : 1 ≤ nodeWeight n := by
  cases n <;> simp [nodeWeight]

theorem wfFrag_head {n : XNode} {t : List XNode} (h : wfFrag (n :: t) = true) :
    wfNode n = true := by
  cases t with
  | nil => simpa [wfFrag] using h
  | cons m t' =>
    simp only [wfFrag, Bool.and_eq_true] at h
    exact h.1.1

theorem wfFrag_tail {n : XNode} {t : List XNode} (h : wfFrag (n :: t) = true) :
    wfFrag t = true := by
  cases t with
  | nil => simp [wfFrag]
  | cons m t' =>
    simp only [wfFrag, Bool.and_eq_true] at h
    exact h.2

theorem wfFrag_parts {n m : XNode} {t : List XNode} (h : wfFrag (n :: m :: t) = true) :
    wfNode n = true ∧ (isTextNode n && isTextNode m) = false ∧ wfFrag (m :: t) = true := by
  simp only [wfFrag, Bool.and_eq_true] at h
  refine ⟨h.1.1, ?_, h.2⟩
  have := h.1.2
  simp only [Bool.not_eq_true'] at this
  exact this

theorem wfNode_elem {sp lo : Bytes} {ch : List XNode}
    (h : wfNode (.xelem sp lo ch) = true) :
    sp = [] ∧ validNameB lo = true ∧ wfFrag ch = true := by
  simp only [wfNode, Bool.and_eq_true] at h
  refine ⟨?_, h.1.2, h.2⟩
  have hsp := h.1.1
  cases sp with
  | nil => rfl
  | cons a b => simp [List.isEmpty] at hsp

theorem wfNode_text {s : Bytes} (h : wfNode (.xtext s) = true) : s ≠ [] := by
  intro he
  subst he
  simp [wfNode] at h

/-- Lexing the rendered payload fragment, followed by the `<` of whatever
tag comes next, emits exactly the fragment's tokens and re-enters tag
mode. -/
theorem runLex_frag (k : Nat) : ∀ (P : List XNode), fragWeight P ≤ k → wfFrag P = true →
    ∀ (toks : List Tok) (r : Bytes),
      runLex ⟨toks, .text [] []⟩ (renderFrag P ++ ('<' :: r)) =
        runLex ⟨toks ++ fragToks P, .tagStart⟩ r := by
  induction k with
  | zero =>
    intro P hs hwf toks r
    cases P with
    | nil =>
      rw [show renderFrag ([] : List XNode) ++ ('<' :: r) = '<' :: r by simp [renderFrag]]
      rw [runLex_openAngle]
      simp [fragToks]
    | cons n t =>
      exfalso
      have h1 := nodeWeight_pos n
      rw [show fragWeight (n :: t) = nodeWeight n + fragWeight t from rfl] at hs
      omega
  | succ k ih =>
    intro P hs hwf toks r
    cases P with
    | nil =>
      rw [show renderFrag ([] : List XNode) ++ ('<' :: r) = '<' :: r by simp [renderFrag]]
      rw [runLex_openAngle]
      simp [fragToks]
    | cons n t =>
      rw [show fragWeight (n :: t) = nodeWeight n + fragWeight t from rfl] at hs
      cases n with
      | xtext s =>
        have hsne : s ≠ [] := wfNode_text (wfFrag_head hwf)
        cases t with
        | nil =>
          have hstream : renderFrag [XNode.xtext s] ++ ('<' :: r) = escText s ++ ('<' :: r) := by
            simp [renderFrag, renderNode]
          rw [hstream, runLex_append, runLex_text_esc]
          simp only [List.nil_append]
          rw [runLex_textFlush _ _ _ _ hsne]
          simp [fragToks, nodeToks]
        | cons m t' =>
          obtain ⟨hwn, hadj, hwt⟩ := wfFrag_parts hwf
          cases m with
          | xtext s2 => simp [isTextNode] at hadj
          | xelem sp2 lo2 ch2 =>
            obtain ⟨hsp2, _, _⟩ := wfNode_elem (wfFrag_head hwt)
            have h1 : renderFrag (XNode.xtext s :: XNode.xelem sp2 lo2 ch2 :: t') ++ ('<' :: r) =
                escText s ++ (renderFrag (XNode.xelem sp2 lo2 ch2 :: t') ++ ('<' :: r)) := by
              simp [renderFrag, renderNode, List.append_assoc]
            rw [h1, runLex_append, runLex_text_esc]
            simp only [List.nil_append]
            have h2 : renderFrag (XNode.xelem sp2 lo2 ch2 :: t') ++ ('<' :: r) =
                '<' :: ((lo2 ++ ('>' :: (renderFrag ch2 ++ ('<' :: '/' :: (lo2 ++ ['>']))))) ++
                  (renderFrag t' ++ ('<' :: r))) := by
              subst hsp2
              simp [renderFrag, renderNode, List.append_assoc]
            rw [h2, runLex_textFlush _ _ _ _ hsne, ← runLex_openAngle, ← h2]
            rw [ih (XNode.xelem sp2 lo2 ch2 :: t') (by
              rw [show fragWeight (XNode.xelem sp2 lo2 ch2 :: t') =
                nodeWeight (XNode.xelem sp2 lo2 ch2) + fragWeight t' from rfl] at hs ⊢
              rw [show nodeWeight (XNode.xtext s) = 1 from rfl] at hs
              omega) hwt]
            simp [fragToks, nodeToks, List.append_assoc]
      | xelem sp lo ch =>
        obtain ⟨hsp, hlo, hwch⟩ := wfNode_elem (wfFrag_head hwf)
        have hwt : wfFrag t = true := wfFrag_tail hwf
        subst hsp
        have hwsize : nodeWeight (XNode.xelem [] lo ch) = 1 + fragWeight ch := rfl
        have h1 : renderFrag (XNode.xelem [] lo ch :: t) ++ ('<' :: r) =
            '<' :: (lo ++ ('>' :: (renderFrag ch ++
              ('<' :: ('/' :: (lo ++ ('>' :: (renderFrag t ++ ('<' :: r))))))))) := by
          simp [renderFrag, renderNode, List.append_assoc]
        rw [h1, runLex_openAngle, runLex_plainOpen lo (rawNameOkB_of_valid hlo)]
        rw [ih ch (by omega) hwch]
        rw [runLex_plainClose lo (rawNameOkB_of_valid hlo)]
        rw [ih t (by omega) hwt]
        simp [fragToks, nodeToks, List.append_assoc]

theorem escChar_of_nameChar {c : Char} (h : isNameChar c = true) : escChar c = [c] := by
  by_cases h1 : c = '"'
  · subst h1; exact absurd h (by decide)
  by_cases h2 : c = sq
  · subst h2; exact absurd h (by decide)
  by_cases h3 : c = '&'
  · subst h3; exact absurd h (by decide)
  by_cases h4 : c = '<'
  · subst h4; exact absurd h (by decide)
  by_cases h5 : c = '>'
  · subst h5; exact absurd h (by decide)
  by_cases h6 : c = '\t'
  · subst h6; exact absurd h (by decide)
  by_cases h7 : c = '\n'
  · subst h7; exact absurd h (by decide)
  by_cases h8 : c = '\r'
  · subst h8; exact absurd h (by decide)
  simp [escChar, h1, h2, h3, h4, h5, h6, h7, h8]

theorem escText_of_nameChars {L : Bytes} (h : ∀ c ∈ L, isNameChar c = true) :
    escText L = L := by
  induction L with
  | nil => rfl
  | cons c t ih =>
    rw [show escText (c :: t) = escChar c ++ escText t from rfl,
      escChar_of_nameChar (h c (List.mem_cons_self c t)),
      ih (fun d hd => h d (List.mem_cons_of_mem c hd))]
    rfl

/-- Lift a concrete clean-state lexer run to an arbitrary token prefix. -/
theorem runLex_clean_toks (x : Bytes) (emitted : List Tok) (mfinal : Mode)
    (h : runLex ⟨[], .text [] []⟩ x = ⟨emitted, mfinal⟩) (toks : List Tok) :
    runLex ⟨toks, .text [] []⟩ x = ⟨toks ++ emitted, mfinal⟩ := by
  rw [runLex_toks x toks, h]

/-- Lexing the ` xmlns:u="` attribute lead-in from inside a tag name. -/
theorem runLex_env2 (toks : List Tok) (raw nm : Bytes) :
    runLex ⟨toks, .openName raw nm⟩ env2 =
      ⟨toks, .attrVal (raw ++ env2) nm [] (bs "xmlns:u") '"' []⟩ := by
  simp +decide [runLex, lexStep, lexStep1, env2, List.append_assoc]

/-- Lexing `">` out of an attribute value: close the attribute, emit the
start token. -/
theorem runLex_env3 (toks : List Tok) (raw nm an vbuf : Bytes) (rest : Bytes) :
    runLex ⟨toks, .attrVal raw nm [] an '"' vbuf⟩ ('"' :: ('>' :: rest)) =
      runLex ⟨toks ++ [⟨.tstart nm [⟨an, vbuf⟩] false, raw ++ bs "\">"⟩], .text [] []⟩ rest := by
  rw [runLex_cons]
  have h1 : lexStep ⟨toks, .attrVal raw nm [] an '"' vbuf⟩ '"' =
      ⟨toks, .attrsWs (raw ++ ['"']) nm [⟨an, vbuf⟩]⟩ := by
    simp [lexStep, lexStep1]
  rw [h1, runLex_cons]
  have h2 : lexStep ⟨toks, .attrsWs (raw ++ ['"']) nm [⟨an, vbuf⟩]⟩ '>' =
      ⟨toks ++ [⟨.tstart nm [⟨an, vbuf⟩] false, raw ++ bs "\">"⟩], .text [] []⟩ := by
    simp +decide [lexStep, lexStep1, List.append_assoc]
  rw [h2]

/-- The tokenizer turns the writer's whole output into the expected token
list. -/
theorem tokenize_writeOut (S L : Bytes) (P : List XNode)
    (hL : validNameB L = true) (hP : wfFrag P = true) :
    tokenize (WriteOut ⟨S, L, P⟩) = .ok (envToks L S P) := by
  have hLn : ∀ c ∈ L, isNameChar c = true := fun c hc => (validNameB_all hL c hc).1
  have hsplit : WriteOut ⟨S, L, P⟩ =
      (envOpen ++ env1) ++ (L ++ (env2 ++ (escText S ++ ('"' :: ('>' ::
        (renderFrag P ++ ('<' :: ('/' :: (bs "u:" ++ (L ++ ('>' :: envClose))))))))))) := by
    rw [writeOut_eq]
    simp only [escText_of_nameChars hLn]
    rw [show env3 = '"' :: ('>' :: ([] : Bytes)) from rfl,
      show env4 = '<' :: ('/' :: bs "u:") from rfl,
      show env5 = '>' :: ([] : Bytes) from rfl]
    simp [List.append_assoc]
  rw [tokenize, hsplit, runLex_append]
  rw [runLex_clean_toks (envOpen ++ env1)
    [tokPI, tokNL, tokEnv, tokBody] (.openName (bs "<u:") (bs "u:")) rfl]
  rw [runLex_append, runLex_openName_run L hLn, runLex_append, runLex_env2,
    runLex_append, runLex_attrVal_esc, runLex_env3]
  rw [runLex_frag (fragWeight P) P le_rfl hP]
  rw [runLex_cons]
  have hslash : lexStep ⟨([] : List Tok) ++ [tokPI, tokNL, tokEnv, tokBody] ++
      [⟨.tstart (bs "u:" ++ L) [⟨bs "xmlns:u", [] ++ S⟩] false,
        bs "<u:" ++ L ++ env2 ++ escText S ++ bs "\">"⟩] ++ fragToks P, .tagStart⟩ '/' =
      ⟨([] : List Tok) ++ [tokPI, tokNL, tokEnv, tokBody] ++
      [⟨.tstart (bs "u:" ++ L) [⟨bs "xmlns:u", [] ++ S⟩] false,
        bs "<u:" ++ L ++ env2 ++ escText S ++ bs "\">"⟩] ++ fragToks P,
        .closeName (bs "</") []⟩ := by
    simp +decide [lexStep, lexStep1]
  rw [hslash]
  rw [runLex_append, runLex_closeName_run (bs "u:") (by decide),
    runLex_append, runLex_closeName_run L hLn]
  rw [runLex_cons]
  have hgt : ∀ toks raw, lexStep ⟨toks, .closeName raw (([] : Bytes) ++ bs "u:" ++ L)⟩ '>' =
      ⟨toks ++ [⟨.tclose (bs "u:" ++ L), raw ++ ['>']⟩], .text [] []⟩ := by
    intro toks raw
    simp +decide [lexStep, lexStep1]
  rw [hgt]
  rw [runLex_clean_toks envClose [tokBodyClose, tokEnvClose] (.text [] []) rfl]
  simp [lexFinish, envToks, tokU, tokUClose, List.append_assoc]
  constructor
  · rfl
  · rfl

theorem dropWhile_ne_colon {L : Bytes} (h : ∀ c ∈ L, c ≠ ':') :
    L.dropWhile (fun c => decide (c ≠ ':')) = [] := by
  induction L with
  | nil => rfl
  | cons c t ih =>
    have h1 : c ≠ ':' := h c (List.mem_cons_self c t)
    have h2 := ih (fun d hd => h d (List.mem_cons_of_mem c hd))
    simp only [List.dropWhile_cons]
    simp only [h1, h2, decide_not, if_true, if_false]
    simp [h1, h2]
    intro x hx
    exact h x (List.mem_cons_of_mem c hx)

theorem splitQName_plain {L : Bytes} (h : validNameB L = true) :
    splitQName L = .ok (none, L) := by
  have hcolon : ∀ c ∈ L, c ≠ ':' := fun c hc => (validNameB_all h c hc).2
  have ht := dropWhile_ne_colon hcolon
  simp only [splitQName]
  rw [ht]

theorem splitQName_u {L : Bytes} (h : validNameB L = true) :
    splitQName (bs "u:" ++ L) = .ok (some (bs "u"), L) := by
  have hcolon : ∀ c ∈ L, c ≠ ':' := fun c hc => (validNameB_all h c hc).2
  have hany : L.any (fun c => decide (c = ':')) = false := by
    rw [List.any_eq_false]
    intro c hc
    simpa using hcolon c hc
  have hne : L ≠ [] := validNameB_ne_nil h
  rw [show bs "u:" ++ L = 'u' :: (':' :: L) from rfl]
  simp only [splitQName, List.takeWhile_cons, List.dropWhile_cons]
  simp +decide [hany, hne]

theorem resolveElemName_plain {lo : Bytes} (h : validNameB lo = true)
    (d : Bytes) (env : NsEnv) :
    resolveElemName d env lo = .ok (d, lo) := by
  simp [resolveElemName, splitQName_plain h]

theorem resolveElemName_u {L : Bytes} (h : validNameB L = true)
    (d : Bytes) (env : NsEnv) :
    resolveElemName d env (bs "u:" ++ L) =
      .ok ((nsLookup env (bs "u")).getD (bs "u"), L) := by
  rw [resolveElemName, splitQName_u h]
  simp +decide

/-- The tree builder turns a fragment's tokens into the fragment's parsed
image appended to the children of the enclosing frame (stated over the
frame's components; the enclosing default namespace is empty, as it is
everywhere inside the written envelope). -/
theorem runBuild_frag (k : Nat) : ∀ (P : List XNode), fragWeight P ≤ k → wfFrag P = true →
    ∀ (frn fsp flo : Bytes) (fat : List RAttr) (fen : NsEnv) (fop : Bytes)
      (fch : List PNode) (fra : Bytes) (fs : List Frame) (top : List PNode),
      runBuild ⟨⟨frn, fsp, flo, fat, [], fen, fop, fch, fra⟩ :: fs, top, none⟩ (fragToks P) =
        ⟨⟨frn, fsp, flo, fat, [], fen, fop, fch ++ pFrag P, fra ++ renderFrag P⟩ :: fs,
          top, none⟩ := by
  induction k with
  | zero =>
    intro P hs hwf frn fsp flo fat fen fop fch fra fs top
    cases P with
    | nil => simp [fragToks, runBuild, pFrag, renderFrag]
    | cons n t =>
      exfalso
      have h1 := nodeWeight_pos n
      rw [show fragWeight (n :: t) = nodeWeight n + fragWeight t from rfl] at hs
      omega
  | succ k ih =>
    intro P hs hwf frn fsp flo fat fen fop fch fra fs top
    cases P with
    | nil => simp [fragToks, runBuild, pFrag, renderFrag]
    | cons n t =>
      rw [show fragWeight (n :: t) = nodeWeight n + fragWeight t from rfl] at hs
      cases n with
      | xtext s =>
        have hstep : bstep ⟨(⟨frn, fsp, flo, fat, [], fen, fop, fch, fra⟩ : Frame) :: fs,
              top, none⟩ ⟨TokCore.ttext s, escText s⟩ =
            ⟨(⟨frn, fsp, flo, fat, [], fen, fop, fch ++ [PNode.ptext s],
                fra ++ escText s⟩ : Frame) :: fs, top, none⟩ := by
          simp [bstep, addNode]
        rw [show fragToks (XNode.xtext s :: t) =
            (⟨TokCore.ttext s, escText s⟩ : Tok) :: fragToks t from rfl, runBuild,
          hstep, ih t (by
            rw [show nodeWeight (XNode.xtext s) = 1 from rfl] at hs
            omega) (wfFrag_tail hwf)]
        simp [pFrag, pNode, renderFrag, renderNode, List.append_assoc]
      | xelem sp lo ch =>
        obtain ⟨hsp, hlo, hwch⟩ := wfNode_elem (wfFrag_head hwf)
        subst hsp
        rw [show nodeWeight (XNode.xelem [] lo ch) = 1 + fragWeight ch from rfl] at hs
        have hstep : bstep ⟨(⟨frn, fsp, flo, fat, [], fen, fop, fch, fra⟩ : Frame) :: fs,
              top, none⟩ ⟨TokCore.tstart lo [] false, '<' :: (lo ++ bs ">")⟩ =
            ⟨(⟨lo, [], lo, [], [], fen, '<' :: (lo ++ bs ">"), [], []⟩ : Frame) ::
              (⟨frn, fsp, flo, fat, [], fen, fop, fch, fra⟩ : Frame) :: fs, top, none⟩ := by
          simp only [bstep, curScope]
          rw [show nsExtend (Frame.defNS ⟨frn, fsp, flo, fat, [], fen, fop, fch, fra⟩,
              Frame.env ⟨frn, fsp, flo, fat, [], fen, fop, fch, fra⟩) [] =
              ([], fen) from rfl, resolveElemName_plain hlo]
          simp [resolveAttrs]
        rw [show fragToks (XNode.xelem [] lo ch :: t) =
            (⟨TokCore.tstart lo [] false, '<' :: (lo ++ bs ">")⟩ : Tok) ::
              (fragToks ch ++ ((⟨TokCore.tclose lo, '<' :: '/' :: (lo ++ bs ">")⟩ : Tok) ::
                fragToks t))
            from by simp [fragToks, nodeToks], runBuild, hstep, runBuild_append,
          ih ch (by omega) hwch]
        have hclose : bstep ⟨(⟨lo, [], lo, [], [], fen, '<' :: (lo ++ bs ">"),
              [] ++ pFrag ch, [] ++ renderFrag ch⟩ : Frame) ::
              (⟨frn, fsp, flo, fat, [], fen, fop, fch, fra⟩ : Frame) :: fs, top, none⟩
            ⟨TokCore.tclose lo, '<' :: '/' :: (lo ++ bs ">")⟩ =
            ⟨(⟨frn, fsp, flo, fat, [], fen, fop,
                fch ++ [PNode.pelem [] lo [] (pFrag ch) (renderFrag ch)],
                fra ++ ('<' :: (lo ++ bs ">") ++ renderFrag ch ++
                  ('<' :: '/' :: (lo ++ bs ">")))⟩ : Frame) :: fs, top, none⟩ := by
          simp [bstep, addNode, List.append_assoc]
        rw [runBuild, hclose, ih t (by omega) (wfFrag_tail hwf)]
        simp [pFrag, pNode, renderFrag, renderNode, List.append_assoc,
          show bs ">" = ['>'] from rfl, List.singleton_append]

theorem toFragL_pFrag (k : Nat) : ∀ P, fragWeight P ≤ k → toFragL (pFrag P) = P := by
  induction k with
  | zero =>
    intro P hs
    cases P with
    | nil => rfl
    | cons n t =>
      exfalso
      have h1 := nodeWeight_pos n
      rw [show fragWeight (n :: t) = nodeWeight n + fragWeight t from rfl] at hs
      omega
  | succ k ih =>
    intro P hs
    cases P with
    | nil => rfl
    | cons n t =>
      rw [show fragWeight (n :: t) = nodeWeight n + fragWeight t from rfl] at hs
      cases n with
      | xtext s =>
        rw [show nodeWeight (XNode.xtext s) = 1 from rfl] at hs
        rw [show pFrag (XNode.xtext s :: t) = PNode.ptext s :: pFrag t from rfl,
          show toFragL (PNode.ptext s :: pFrag t) =
            XNode.xtext s :: toFragL (pFrag t) from rfl,
          ih t (by omega)]
      | xelem sp lo ch =>
        rw [show nodeWeight (XNode.xelem sp lo ch) = 1 + fragWeight ch from rfl] at hs
        rw [show pFrag (XNode.xelem sp lo ch :: t) =
            PNode.pelem sp lo [] (pFrag ch) (renderFrag ch) :: pFrag t from rfl,
          show toFragL (PNode.pelem sp lo [] (pFrag ch) (renderFrag ch) :: pFrag t) =
            XNode.xelem sp lo (toFragL (pFrag ch)) :: toFragL (pFrag t) from rfl,
          ih ch (by omega), ih t (by omega)]

theorem runBuild_cons (st : BSt) (t : Tok) (ts : List Tok) :
    runBuild st (t :: ts) = runBuild (bstep st t) ts := rfl

/-- Running the tree builder over the writer's token stream: the stack
unwinds completely, leaving the leading newline text node and the envelope
element tree around the payload's parsed image. -/
theorem runBuild_envToks (S L : Bytes) (P : List XNode)
    (hL : validNameB L = true) (hP : wfFrag P = true) :
    ∃ braw eraw, runBuild ⟨[], [], none⟩ (envToks L S P) =
      ⟨[], [PNode.ptext (bs "\n"),
        PNode.pelem soapNS (bs "Envelope")
          [⟨soapNS, bs "encodingStyle", encStyleURI⟩]
          [PNode.pelem soapNS (bs "Body") []
            [PNode.pelem S L [] (pFrag P) (renderFrag P)] braw] eraw], none⟩ := by
  exact ⟨_, _, by
    rw [show envToks L S P = [tokPI, tokNL, tokEnv, tokBody] ++
        (tokU L S :: (fragToks P ++ [tokUClose L, tokBodyClose, tokEnvClose])) from by
      simp [envToks]]
    rw [runBuild_append]
    have h4 : runBuild ⟨[], [], none⟩ [tokPI, tokNL, tokEnv, tokBody] =
        ⟨[⟨bs "s:Body", soapNS, bs "Body", [], [], [(bs "s", soapNS)], bs "<s:Body>", [], []⟩,
          ⟨bs "s:Envelope", soapNS, bs "Envelope",
            [⟨soapNS, bs "encodingStyle", encStyleURI⟩], [], [(bs "s", soapNS)],
            envTagRaw, [], []⟩],
         [PNode.ptext (bs "\n")], none⟩ := by rfl
    rw [h4, runBuild_cons]
    have hu : bstep
        ⟨[⟨bs "s:Body", soapNS, bs "Body", [], [], [(bs "s", soapNS)], bs "<s:Body>", [], []⟩,
          ⟨bs "s:Envelope", soapNS, bs "Envelope",
            [⟨soapNS, bs "encodingStyle", encStyleURI⟩], [], [(bs "s", soapNS)],
            envTagRaw, [], []⟩],
         [PNode.ptext (bs "\n")], none⟩ (tokU L S) =
        ⟨⟨bs "u:" ++ L, S, L, [], [], [(bs "u", S), (bs "s", soapNS)],
            bs "<u:" ++ L ++ bs " xmlns:u=\"" ++ escText S ++ bs "\">", [], []⟩ ::
         [⟨bs "s:Body", soapNS, bs "Body", [], [], [(bs "s", soapNS)], bs "<s:Body>", [], []⟩,
          ⟨bs "s:Envelope", soapNS, bs "Envelope",
            [⟨soapNS, bs "encodingStyle", encStyleURI⟩], [], [(bs "s", soapNS)],
            envTagRaw, [], []⟩],
         [PNode.ptext (bs "\n")], none⟩ := by
      simp only [bstep, tokU, curScope]
      rw [show nsExtend ([], [(bs "s", soapNS)]) [⟨bs "xmlns:u", S⟩] =
          ([], [(bs "u", S), (bs "s", soapNS)]) from rfl]
      rw [resolveElemName_u hL]
      rw [show (nsLookup [(bs "u", S), (bs "s", soapNS)] (bs "u")).getD (bs "u") = S from rfl]
      rw [show resolveAttrs [(bs "u", S), (bs "s", soapNS)] [⟨bs "xmlns:u", S⟩] =
          .ok [] from rfl]
      simp
    rw [hu, runBuild_append, runBuild_frag (fragWeight P) P le_rfl hP]
    rw [runBuild_cons]
    have hc1 : bstep
        ⟨⟨bs "u:" ++ L, S, L, [], [], [(bs "u", S), (bs "s", soapNS)],
            bs "<u:" ++ L ++ bs " xmlns:u=\"" ++ escText S ++ bs "\">",
            [] ++ pFrag P, [] ++ renderFrag P⟩ ::
         [⟨bs "s:Body", soapNS, bs "Body", [], [], [(bs "s", soapNS)], bs "<s:Body>", [], []⟩,
          ⟨bs "s:Envelope", soapNS, bs "Envelope",
            [⟨soapNS, bs "encodingStyle", encStyleURI⟩], [], [(bs "s", soapNS)],
            envTagRaw, [], []⟩],
         [PNode.ptext (bs "\n")], none⟩ (tokUClose L) =
        ⟨[⟨bs "s:Body", soapNS, bs "Body", [], [], [(bs "s", soapNS)], bs "<s:Body>",
            [PNode.pelem S L [] (pFrag P) (renderFrag P)],
            bs "<u:" ++ L ++ bs " xmlns:u=\"" ++ escText S ++ bs "\">" ++
              renderFrag P ++ (bs "</u:" ++ L ++ bs ">")⟩,
          ⟨bs "s:Envelope", soapNS, bs "Envelope",
            [⟨soapNS, bs "encodingStyle", encStyleURI⟩], [], [(bs "s", soapNS)],
            envTagRaw, [], []⟩],
         [PNode.ptext (bs "\n")], none⟩ := by
      simp [bstep, tokUClose, addNode, List.append_assoc]
    rw [hc1, runBuild_cons]
    have hc2 : ∀ (bch : List PNode) (bra : Bytes), bstep
        ⟨[⟨bs "s:Body", soapNS, bs "Body", [], [], [(bs "s", soapNS)], bs "<s:Body>",
            bch, bra⟩,
          ⟨bs "s:Envelope", soapNS, bs "Envelope",
            [⟨soapNS, bs "encodingStyle", encStyleURI⟩], [], [(bs "s", soapNS)],
            envTagRaw, [], []⟩],
         [PNode.ptext (bs "\n")], none⟩ tokBodyClose =
        ⟨[⟨bs "s:Envelope", soapNS, bs "Envelope",
            [⟨soapNS, bs "encodingStyle", encStyleURI⟩], [], [(bs "s", soapNS)],
            envTagRaw, [PNode.pelem soapNS (bs "Body") [] bch bra],
            bs "<s:Body>" ++ bra ++ bs "</s:Body>"⟩],
         [PNode.ptext (bs "\n")], none⟩ := by
      intro bch bra
      simp [bstep, tokBodyClose, addNode, List.append_assoc]
    rw [hc2, runBuild_cons]
    have hc3 : ∀ (ech : List PNode) (era : Bytes), bstep
        ⟨[⟨bs "s:Envelope", soapNS, bs "Envelope",
            [⟨soapNS, bs "encodingStyle", encStyleURI⟩], [], [(bs "s", soapNS)],
            envTagRaw, ech, era⟩],
         [PNode.ptext (bs "\n")], none⟩ tokEnvClose =
        ⟨[], [PNode.ptext (bs "\n"),
          PNode.pelem soapNS (bs "Envelope")
            [⟨soapNS, bs "encodingStyle", encStyleURI⟩] ech era], none⟩ := by
      intro ech era
      simp [bstep, tokEnvClose, addNode]
    rw [hc3]
    rfl⟩

/-- Parsing the writer's output yields the envelope/body tree around the
payload's parsed image. -/
theorem parseDoc_writeOut (S L : Bytes) (P : List XNode)
    (hL : validNameB L = true) (hP : wfFrag P = true) :
    ∃ braw eraw, parseDoc (WriteOut ⟨S, L, P⟩) =
      .ok (PNode.pelem soapNS (bs "Envelope")
        [⟨soapNS, bs "encodingStyle", encStyleURI⟩]
        [PNode.pelem soapNS (bs "Body") []
          [PNode.pelem S L [] (pFrag P) (renderFrag P)] braw] eraw) := by
  obtain ⟨braw, eraw, hr⟩ := runBuild_envToks S L P hL hP
  refine ⟨braw, eraw, ?_⟩
  simp only [parseDoc, tokenize_writeOut S L P hL hP, buildDoc, hr]
  simp [List.find?, isElemNode]

theorem round_trip_core (S L : Bytes) (P : List XNode) (a0 : Action)
    (hL : validNameB L = true) (hF : L ≠ bs "Fault") (hP : wfFrag P = true) :
    Read (WriteOut ⟨S, L, P⟩) a0 = .ok ⟨S, L, P⟩ := by
  obtain ⟨braw, eraw, hp⟩ := parseDoc_writeOut S L P hL hP
  have h := read_single (WriteOut ⟨S, L, P⟩) a0 S L
    [⟨soapNS, bs "encodingStyle", encStyleURI⟩] [] [] (pFrag P) eraw braw
    (renderFrag P) hp hF
  rw [h, toFragL_pFrag (fragWeight P) P le_rfl]

theorem fragToks_no_default (k : Nat) : ∀ P, fragWeight P ≤ k →
    (fragToks P).any tokHasDefaultDecl = false := by
  induction k with
  | zero =>
    intro P hs
    cases P with
    | nil => rfl
    | cons n t =>
      exfalso
      have h1 := nodeWeight_pos n
      rw [show fragWeight (n :: t) = nodeWeight n + fragWeight t from rfl] at hs
      omega
  | succ k ih =>
    intro P hs
    cases P with
    | nil => rfl
    | cons n t =>
      rw [show fragWeight (n :: t) = nodeWeight n + fragWeight t from rfl] at hs
      cases n with
      | xtext s =>
        rw [show nodeWeight (XNode.xtext s) = 1 from rfl] at hs
        rw [show fragToks (XNode.xtext s :: t) =
            (⟨TokCore.ttext s, escText s⟩ : Tok) :: fragToks t from rfl]
        simp [tokHasDefaultDecl, ih t (by omega)]
      | xelem sp lo ch =>
        rw [show nodeWeight (XNode.xelem sp lo ch) = 1 + fragWeight ch from rfl] at hs
        rw [show fragToks (XNode.xelem sp lo ch :: t) =
            (⟨TokCore.tstart lo [] false, '<' :: (lo ++ bs ">")⟩ : Tok) ::
              (fragToks ch ++ ((⟨TokCore.tclose lo, '<' :: '/' :: (lo ++ bs ">")⟩ : Tok) ::
                fragToks t))
            from by simp [fragToks, nodeToks]]
        simp [tokHasDefaultDecl, List.any_append, ih ch (by omega), ih t (by omega)]

theorem hasDefaultXmlns_writeOut (S L : Bytes) (P : List XNode)
    (hL : validNameB L = true) (hP : wfFrag P = true) :
    hasDefaultXmlns (WriteOut ⟨S, L, P⟩) = false := by
  rw [hasDefaultXmlns, tokenize_writeOut S L P hL hP]
  simp +decide [envToks, tokHasDefaultDecl, tokPI, tokNL, tokEnv, tokBody, tokU,
    tokUClose, tokBodyClose, tokEnvClose, List.any_append,
    fragToks_no_default (fragWeight P) P le_rfl]

/-! ## Claims -/

/-- C1: for every byte stream whose decoded `Body` contains a `Fault`
element, `Read` returns that Fault as the error outcome and does not report
success, even when the action payload target was also populated from
sibling action-shaped content in the same `Body`. -/
theorem claim1_fault_precedence (input : Bytes) (a0 : Action) (root : PNode)
    (h1 : parseDoc input = .ok root)
    (h2 : pName root = (soapNS, bs "Envelope"))
    (h3 : (pChildren root).any (fun b => isBodyNode b && (pChildren b).any isFaultNode) = true) :
    isFaultErr (Read input a0) = true ∧ isOkRes (Read input a0) = false := by
  cases root with
  | ptext s =>
    have hfst : ([] : Bytes) = soapNS := congrArg Prod.fst h2
    exact absurd hfst (by decide)
  | pelem sp lo attrs ch raw =>
    obtain ⟨hsp, hlo⟩ : sp = soapNS ∧ lo = bs "Envelope" := by
      simpa [pName, Prod.ext_iff] using h2
    subst hsp; subst hlo
    simp only [pChildren] at h3
    obtain ⟨b, hb, hba⟩ := List.any_eq_true.mp h3
    obtain ⟨hbody, hfc⟩ := Bool.and_eq_true_iff.mp hba
    have hsome : (decodeEnvChildren ⟨none, a0⟩ ch).Fault.isSome = true :=
      decodeEnvChildren_fault_of_mem ch _ b hb hbody hfc
    obtain ⟨f, hf⟩ := Option.isSome_iff_exists.mp hsome
    simp [Read, h1, pName, decodeEnvelope, hf, isFaultErr, isOkRes]

/-- Witness for C1: a concrete envelope holding both a `Fault` and a
sibling action element yields the Fault error, not success. -/
theorem claim1_witness :
    isFaultErr (Read c1Input zeroAction) = true ∧ isOkRes (Read c1Input zeroAction) = false :=
  claim1_fault_precedence c1Input zeroAction c1Root rfl rfl rfl

/-- C2 (code bug evaluation): when the ninth write call — the one made by
`xml.EscapeText` for the closing-tag local name — fails, `Write` reports
success (`none`) and still performs the two subsequent framing writes
(`env5` and `envClose`), because the source drops that call's error.  The
output also shows the closing local name is missing, so the produced
envelope is malformed while the caller sees no error. -/
theorem claim2_write_error_swallowed :
    (Write failAtCloseName getStatusAction).2 = none ∧
    (Write failAtCloseName getStatusAction).1.out =
      envOpen ++ env1 ++ bs "GetStatus" ++ env2 ++ bs "urn:example" ++ env3 ++
        env4 ++ env5 ++ envClose := by
  exact ⟨by decide, by decide⟩

/-- Counterexample for C3: the byte string claimed by the spec (which has no
newline after the XML declaration) is not what `Write` produces — Go's
`xml.Header` constant ends in a newline. -/
theorem claim3_counterexample :
    WriteOut getStatusAction ≠
      bs "<?xml version=\"1.0\" encoding=\"UTF-8\"?><s:Envelope xmlns:s=\"http://schemas.xmlsoap.org/soap/envelope/\" s:encodingStyle=\"http://schemas.xmlsoap.org/soap/encoding/\"><s:Body><u:GetStatus xmlns:u=\"urn:example\"></u:GetStatus></s:Body></s:Envelope>" := by
  decide

/-- C3 as amended: the exact bytes `Write` produces for the `GetStatus`
action with empty payload — identical to the claimed string except for the
newline `xml.Header` places after the XML declaration. -/
theorem claim3_framing_with_newline :
    WriteOut getStatusAction =
      bs "<?xml version=\"1.0\" encoding=\"UTF-8\"?>\n<s:Envelope xmlns:s=\"http://schemas.xmlsoap.org/soap/envelope/\" s:encodingStyle=\"http://schemas.xmlsoap.org/soap/encoding/\"><s:Body><u:GetStatus xmlns:u=\"urn:example\"></u:GetStatus></s:Body></s:Envelope>" := by
  decide

/-- C5: `Write` emits the wrapper open tag with the local name and the
namespace passed through the generic escaper (`escText`, the model of
`xml.EscapeText`), never assuming them pre-escaped; the hypothesis singles
out the names the claim quantifies over (those containing `<`, `&` or
`"`). -/
theorem claim5_names_escaped (a : Action)
    (_h : hasSpecial a.Local = true ∨ hasSpecial a.Space = true) :
    (Write ⟨[], []⟩ a).1.out =
      envOpen ++ env1 ++ escText a.Local ++ env2 ++ escText a.Space ++ env3 ++
        renderFrag a.Args ++ env4 ++ escText a.Local ++ env5 ++ envClose :=
  writeOut_eq a

/-- Witness for C5: the namespace `urn:a&b` is emitted as `urn:a&amp;b`. -/
theorem claim5_witness :
    hasSpecial (bs "urn:a&b") = true ∧
    (Write ⟨[], []⟩ ⟨bs "urn:a&b", bs "GetStatus", []⟩).1.out =
      bs "<?xml version=\"1.0\" encoding=\"UTF-8\"?>\n<s:Envelope xmlns:s=\"http://schemas.xmlsoap.org/soap/envelope/\" s:encodingStyle=\"http://schemas.xmlsoap.org/soap/encoding/\"><s:Body><u:GetStatus xmlns:u=\"urn:a&amp;b\"></u:GetStatus></s:Body></s:Envelope>" :=
  ⟨by decide,
   (claim5_names_escaped ⟨bs "urn:a&b", bs "GetStatus", []⟩ (Or.inr (by decide))).trans
     (by decide)⟩

/-- C6: the concrete `Fault` with code/string/actor/detail decodes to a
Fault error with `Code="Server"`, `String="boom"`, `Actor="svc1"` and the
raw, unparsed detail bytes `<x>1</x>`. -/
theorem claim6_fault_field_mapping :
    Read faultEnvelopeInput zeroAction =
      .error (.fault ⟨bs "Server", bs "boom", bs "svc1", bs "<x>1</x>"⟩) := by
  rfl

/-- C8: whenever structural decoding of the stream fails, `Read` returns
that decode error itself — neither a Fault nor success. -/
theorem claim8_decode_error_propagated (input : Bytes) (a : Action) (e : String)
    (h : parseDoc input = .error e) :
    Read input a = .error (.decodeErr e) := by
  simp [Read, h]

/-- Witness for C8: a truncated envelope yields the decoder's own error. -/
theorem claim8_witness :
    Read (bs "<s:Envelope") zeroAction = .error (.decodeErr "unexpected EOF") :=
  claim8_decode_error_propagated (bs "<s:Envelope") zeroAction "unexpected EOF" rfl

/-- C9: the action payload is decoded positionally — for every well-formed
fault-free envelope whose single `Body` child is an element of arbitrary
qualified name, `Read` succeeds and populates the payload (and name) from
that element, without comparing its name to the caller-supplied one. -/
theorem claim9_positional_decode (input : Bytes) (a0 : Action) {asp alo : Bytes}
    {eattrs battrs aattrs : List RAttr} {ch : List PNode} {eraw braw araw : Bytes}
    (h1 : parseDoc input = .ok (.pelem soapNS (bs "Envelope") eattrs
      [.pelem soapNS (bs "Body") battrs
        [.pelem asp alo aattrs ch araw] braw] eraw))
    (h2 : alo ≠ bs "Fault") :
    Read input a0 = .ok ⟨asp, alo, toFragL ch⟩ :=
  read_single input a0 asp alo eattrs battrs aattrs ch eraw braw araw h1 h2

/-- Witness for C9: an element named `Action77` (a name the caller never
supplied) is decoded successfully into the payload. -/
theorem claim9_witness :
    Read c9Input zeroAction =
      .ok ⟨[], bs "Action77", [.xelem [] (bs "A") [.xtext (bs "1")]]⟩ :=
  claim9_positional_decode c9Input zeroAction
    (show parseDoc c9Input = Except.ok c9Root from rfl) (by decide)

/-- C10: on a successful read of a fault-free envelope, the caller-supplied
action's `XMLName` is overwritten with the qualified name of the element
actually found in `Body`. -/
theorem claim10_xmlname_overwritten (input : Bytes) (a0 : Action) {asp alo : Bytes}
    {eattrs battrs aattrs : List RAttr} {ch : List PNode} {eraw braw araw : Bytes}
    (h1 : parseDoc input = .ok (.pelem soapNS (bs "Envelope") eattrs
      [.pelem soapNS (bs "Body") battrs
        [.pelem asp alo aattrs ch araw] braw] eraw))
    (h2 : alo ≠ bs "Fault") :
    (Read input a0).map (fun r => (r.Space, r.Local)) = .ok (asp, alo) := by
  rw [read_single input a0 asp alo eattrs battrs aattrs ch eraw braw araw h1 h2]
  rfl

/-- Witness for C10: a caller asking for `urn:mine Requested` gets back an
action renamed to the peer's `urn:peer Renamed`. -/
theorem claim10_witness :
    (Read c10Input ⟨bs "urn:mine", bs "Requested", []⟩).map (fun r => (r.Space, r.Local)) =
      .ok (bs "urn:peer", bs "Renamed") ∧
    ((bs "urn:peer", bs "Renamed") ≠ ((bs "urn:mine" : Bytes), (bs "Requested" : Bytes))) :=
  ⟨claim10_xmlname_overwritten c10Input ⟨bs "urn:mine", bs "Requested", []⟩
    (show parseDoc c10Input = Except.ok c10Root from rfl) (by decide),
   by decide⟩

/-- Counterexample for C4: the round trip fails as universally stated — an
action whose local name is `Fault` (with non-empty namespace and a
serializable empty payload) is written successfully, but reading the
produced bytes binds the element to the `body` struct's `Fault` field and
returns a Fault error instead of the payload. -/
theorem claim4_counterexample :
    Read (WriteOut ⟨bs "urn:example", bs "Fault", []⟩) zeroAction =
      .error (.fault emptyFault) ∧
    isOkRes (Read (WriteOut ⟨bs "urn:example", bs "Fault", []⟩) zeroAction) = false :=
  ⟨rfl, rfl⟩

/-- C4 as amended: writing an action and reading the produced bytes back
succeeds, with the payload (and qualified name) recovered exactly, for
every action whose local name is a usable XML name other than `Fault`,
whose namespace is non-empty, and whose payload fragment is well-formed
and namespace-free. -/
theorem claim4_round_trip (a : Action) (a0 : Action)
    (hL : validNameB a.Local = true) (hF : a.Local ≠ bs "Fault")
    (_hS : a.Space ≠ []) (hP : wfFrag a.Args = true) :
    Read (WriteOut a) a0 = .ok a := by
  obtain ⟨S, L, P⟩ := a
  exact round_trip_core S L P a0 hL hF hP

/-- Witness for C4: a concrete `GetStatus` action with an element-and-text
payload (including a character needing escaping) round-trips exactly. -/
theorem claim4_witness :
    Read (WriteOut ⟨bs "urn:example", bs "GetStatus",
        [.xelem [] (bs "Arg") [.xtext (bs "va&l")]]⟩) zeroAction =
      .ok ⟨bs "urn:example", bs "GetStatus",
        [.xelem [] (bs "Arg") [.xtext (bs "va&l")]]⟩ :=
  claim4_round_trip ⟨bs "urn:example", bs "GetStatus",
    [.xelem [] (bs "Arg") [.xtext (bs "va&l")]]⟩ zeroAction
    (by decide) (by decide) (by decide) (by decide)

/-- Counterexample for C7: a payload containing a namespaced element is
marshaled by the collaborator with a default `xmlns="..."` declaration, so
the emitted envelope does contain an unprefixed namespace declaration. -/
theorem claim7_counterexample :
    hasDefaultXmlns (WriteOut ⟨bs "urn:example", bs "GetStatus",
      [.xelem (bs "urn:x") (bs "Foo") []]⟩) = true := by
  rfl

/-- C7 as amended: the envelope emitted by `Write` contains no unprefixed
(default) `xmlns` declaration at any nesting level — all framing-level
declarations bind the explicit `s:` and `u:` prefixes — for every action
whose payload marshals without one (in particular any well-formed
namespace-free payload fragment). -/
theorem claim7_no_default_xmlns (a : Action)
    (hL : validNameB a.Local = true) (hP : wfFrag a.Args = true) :
    hasDefaultXmlns (WriteOut a) = false := by
  obtain ⟨S, L, P⟩ := a
  exact hasDefaultXmlns_writeOut S L P hL hP

/-- Witness for C7: a concrete action with a namespace-free payload has no
default namespace declaration anywhere in its emitted envelope. -/
theorem claim7_witness :
    hasDefaultXmlns (WriteOut ⟨bs "urn:example", bs "GetStatus",
      [.xelem [] (bs "Arg") [.xtext (bs "1")]]⟩) = false :=
  claim7_no_default_xmlns ⟨bs "urn:example", bs "GetStatus",
    [.xelem [] (bs "Arg") [.xtext (bs "1")]]⟩ (by decide) (by decide)

end envelope